import Mathlib

/- Verification of the outline-to-navigation synchronizer of this repository
   (scripts/mdbook-mkdocs-sync.py).

   The development shallowly embeds the two core components:
   * the outline parser: `parse_summary`, with its helpers
     `_parse_nav_item_with_tracking` (here `parseNavItem` / `collectKids`),
     `_is_home_page` (here `isHomePage`) and `_normalize_section_name`;
   * the navigation merger `_update_nav_in_place`, including a faithful
     model of the Python regular-expression engine's backtracking search for
     the fixed pattern
       `^nav:.*?\n((?:[ \t]+.*\n|\s*\n)*?)(?=^[a-zA-Z]|\Z)`
     compiled with `re.MULTILINE | re.DOTALL`, and of `re.subn` over it.

   Text is modelled as `List Char` (`Str`).  A document is the list of its
   lines; each line is stored without its trailing newline character (the
   Python code reads lines with `readlines` and every use of a raw line is,
   for the patterns involved, insensitive to trailing whitespace, while all
   other uses first apply `rstrip`).  Python `\s` on `str` is
   `[ \t\n\r\f\v]`, modelled by `pyIsSpace`.

   The accumulating human-readable diagnostics list (`self.changes`) is
   carried in the parser state for fidelity, although no theorem consults
   it. -/

namespace MdSync

abbrev Str := List Char

/-- Python `\s` character class for `str` patterns: space, tab, newline,
carriage return, form feed, vertical tab. -/
def pyIsSpace (c : Char) : Bool :=
  c = ' ' || c = '\t' || c = '\n' || c = '\r' || c = '\x0c' || c = '\x0b'

/-- Python `str.rstrip()`: drop trailing whitespace. -/
def pyRstrip (l : Str) : Str :=
  (l.reverse.dropWhile pyIsSpace).reverse

/-- Python `str.lstrip()`: drop leading whitespace. -/
def pyLstrip (l : Str) : Str :=
  l.dropWhile pyIsSpace

/-- Python `str.strip()`: drop whitespace on both ends. -/
def pyStrip (l : Str) : Str :=
  pyRstrip (pyLstrip l)

/-- Python `str.lower()` (the characters involved here are ASCII). -/
def pyLower (l : Str) : Str := l.map Char.toLower

/-- Scan of the lazy sub-pattern `(.+?)\)` (no DOTALL: `.` excludes the
newline): the path is everything up to the first `)` at index at least one,
provided no newline occurs before it.  `acc` holds the reversed path read so
far (nonempty). -/
def pathLoop (acc : Str) : Str → Option Str
  | [] => none
  | c :: rest =>
    if c = ')' then some acc.reverse
    else if c = '\n' then none
    else pathLoop (c :: acc) rest

/-- Entry point of `(.+?)\)`: at least one character before the closing
parenthesis. -/
def pathScan : Str → Option Str
  | [] => none
  | c :: rest => if c = '\n' then none else pathLoop [c] rest

/-- Scan of the lazy sub-pattern `(.+?)\]\((.+?)\)` after the opening `[`
has been consumed and at least one title character has been read into the
reversed accumulator `acc`.  The lazy title extends one character at a time;
a candidate boundary is a `]` immediately followed by `(` at which the path
sub-pattern succeeds. -/
def titleLoop (acc : Str) : Str → Option (Str × Str)
  | [] => none
  | c :: rest =>
    if c = ']' ∧ rest.headD ' ' = '(' then
      match pathScan rest.tail with
      | some p => some (acc.reverse, p)
      | none => titleLoop (c :: acc) rest
    else if c = '\n' then none
    else titleLoop (c :: acc) rest

/-- `\[(.+?)\]\((.+?)\)` applied where the text is known to begin after the
`[`. -/
def bracketTail : Str → Option (Str × Str)
  | [] => none
  | c :: rest => if c = '\n' then none else titleLoop [c] rest

/-- `re.match(r'^(\s*)(?:- )?\[(.+?)\]\((.+?)\)', line)` from
`parse_summary`: maximal leading whitespace, an optional `- `, then the
bracketed link.  Shorter whitespace or dropping a present `- ` cannot make
the remainder match (the next character would be whitespace or `-`, never
`[`), so no further backtracking arises.  Returns
(whitespace group, title, path). -/
def matchItem (l : Str) : Option (Str × Str × Str) :=
  let ws := l.takeWhile pyIsSpace
  let rest := l.dropWhile pyIsSpace
  let rest2 := if rest.take 2 = ['-', ' '] then rest.drop 2 else rest
  match rest2 with
  | '[' :: after =>
    match bracketTail after with
    | some (t, p) => some (ws, t, p)
    | none => none
  | _ => none

/-- `re.match(r'^(\s*)- \[(.+?)\]\((.+?)\)', child_line)` from the child
collection loop: like `matchItem` but the `- ` is mandatory. -/
def childItemMatch (l : Str) : Option (Str × Str × Str) :=
  let ws := l.takeWhile pyIsSpace
  let rest := l.dropWhile pyIsSpace
  match rest with
  | '-' :: ' ' :: '[' :: after =>
    match bracketTail after with
    | some (t, p) => some (ws, t, p)
    | none => none
  | _ => none

/-- `re.match(r'^(\s*)- \[', next_line)` used for the one-line lookahead
deciding `has_children`; returns the length of the whitespace group. -/
def childLookahead (l : Str) : Option Nat :=
  let ws := l.takeWhile pyIsSpace
  let rest := l.dropWhile pyIsSpace
  if rest.take 3 = ['-', ' ', '['] then some ws.length else none

/-- `_is_home_page`: the three conventional names case-insensitively, and
`index.md` only by exact comparison. -/
def isHomePage (p : Str) : Bool :=
  ["intro.md".toList, "readme.md".toList, "introduction.md".toList].contains
      (pyLower p)
    || p == "index.md".toList

/-- `_normalize_section_name`: the fixed alias table, identity elsewhere. -/
def normalizeSectionName (s : Str) : Str :=
  if s = "User Guide".toList then "User Guide".toList
  else if s = "Advanced Topics".toList then "Advanced".toList
  else if s = "Reference".toList then "Reference".toList
  else if s = "API Reference".toList then "API".toList
  else if s = "Developer Guide".toList then "Development".toList
  else s

/-- The shape of the Python values built by the parser: bare strings,
single-key dicts, and lists. -/
inductive Y where
  | s (v : Str)
  | map1 (k : Str) (v : Y)
  | list (elems : List Y)

/-- The mutable state of the `parse_summary` loop:
`nav`, `current_section_name`, `section_items`, `home_page_found`,
`processed_lines` (1-indexed, kept as a list whose membership models the
Python set) and `self.changes`. -/
structure PState where
  nav : List Y
  curName : Option Str
  items : List Y
  homeFound : Bool
  processed : List Nat
  changes : List Str

/-- Python truthiness of `current_section_name`: not `None` and not the
empty string. -/
def truthyName : Option Str → Bool
  | none => false
  | some n => n ≠ []

def initState : PState := ⟨[], none, [], false, [], []⟩

/-- The child-collection loop of `_parse_nav_item_with_tracking`, written
as structural recursion over the suffix of lines not yet inspected (the
head of the suffix is line `j` of the document): stop at a section header
or at a matching list item whose indent is at most `lvl`, collect items at
indent exactly `lvl + 1` together with their 1-indexed line numbers, and
skip everything else. -/
def collectGo (susp : List Str) (j : Nat) (lvl : Nat) : List Y × List Nat :=
  match susp with
  | [] => ([], [])
  | l :: rest =>
    let cl := pyRstrip l
    if cl.headD ' ' = '#' then ([], [])
    else if cl = [] then collectGo rest (j+1) lvl
    else
      match childItemMatch cl with
      | some (ws, t, p) =>
        let ci := ws.length / 2
        if ci ≤ lvl then ([], [])
        else if ci = lvl + 1 then
          let r := collectGo rest (j+1) lvl
          (Y.map1 t (Y.s p) :: r.1, (j+1) :: r.2)
        else collectGo rest (j+1) lvl
      | none => collectGo rest (j+1) lvl

/-- The child-collection loop started at line index `j`. -/
def collectKids (lines : List Str) (j : Nat) (lvl : Nat) : List Y × List Nat :=
  collectGo (lines.drop j) j lvl

/-- `_parse_nav_item_with_tracking`: one-line lookahead for
`has_children`, then, when the item is a parent (lookahead succeeded or the
path ends in `/index.md`), collection of the direct children; the item's own
path is listed first unless it ends in `/`. -/
def parseNavItem (lines : List Str) (i : Nat) (title path : Str) (lvl : Nat) :
    Y × List Nat :=
  let hasChildren : Bool :=
    if i + 1 < lines.length then
      match childLookahead (lines.getD (i+1) []) with
      | some w => w / 2 > lvl
      | none => false
    else false
  if hasChildren || "/index.md".toList.isSuffixOf path then
    let r := collectKids lines (i+1) lvl
    if path ≠ [] ∧ ¬ (['/'].isSuffixOf path) then
      (Y.map1 title (Y.list (Y.s path :: r.1)), r.2)
    else (Y.map1 title (Y.list r.1), r.2)
  else (Y.map1 title (Y.s path), [])

/-- `nav.append` vs `section_items.append` depending on the truthiness of
`current_section_name`. -/
def appendEntry (s : PState) (item : Y) : PState :=
  if truthyName s.curName then { s with items := s.items ++ [item] }
  else { s with nav := s.nav ++ [item] }

def homeEntry : Y := Y.map1 "Home".toList (Y.s "index.md".toList)

/-- The home-page branch of the main loop: map the path to `index.md`, set
the flag, record the diagnostic when the original path differs, and insert
the `Home` entry at the front of `nav`. -/
def homeStep (s : PState) (origPath : Str) : PState :=
  { s with nav := homeEntry :: s.nav,
           homeFound := true,
           changes := s.changes ++
             (if origPath ≠ "index.md".toList then
               ["Map home page: ".toList ++ origPath ++ " → index.md".toList]
              else []) }

/-- Flush of the previous section performed when a heading line is seen.
Python `if current_section_name and section_items:` is the truthiness of the
name together with nonemptiness of the list. -/
def flushSection (s : PState) : PState :=
  if truthyName s.curName && !s.items.isEmpty then
    { s with nav := s.nav ++ [Y.map1 (s.curName.getD []) (Y.list s.items)],
             items := [] }
  else s

/-- The heading branch: flush, extract the header text
(`line.lstrip('#').strip()`), skip a `Summary` header without touching the
open section name, otherwise open the new (alias-mapped) section. -/
def headingStep (s : PState) (line : Str) : PState :=
  let s1 := flushSection s
  let header := pyStrip (line.dropWhile (· = '#'))
  if pyLower header = "summary".toList then s1
  else
    { s1 with curName := some (normalizeSectionName header),
              changes := s1.changes ++
                ["Found section: ".toList ++ header ++ " → ".toList ++
                  normalizeSectionName header] }

/-- The main `while` loop of `parse_summary`, written as structural
recursion over the suffix of lines not yet visited (the head of the suffix
is line `i` of the full document `lines`, which stays available for the
lookahead and the child collection).  Line numbers are 1-indexed in
`processed` (the Python code increments `line_num` before using it). -/
def scanGo (lines : List Str) (susp : List Str) (i : Nat) (s : PState) :
    PState :=
  match susp with
  | [] => s
  | l :: rest =>
    let line := pyRstrip l
    if line = [] then scanGo lines rest (i+1) s
    else if (i+1) ∈ s.processed then scanGo lines rest (i+1) s
    else if line.headD ' ' = '#' then scanGo lines rest (i+1) (headingStep s line)
    else
      match matchItem line with
      | none => scanGo lines rest (i+1) s
      | some (ws, title, path) =>
        if ws.length / 2 > 0 then scanGo lines rest (i+1) s
        else if isHomePage path then scanGo lines rest (i+1) (homeStep s path)
        else
          let r := parseNavItem lines i title path (ws.length / 2)
          scanGo lines rest (i+1)
            (appendEntry { s with processed := s.processed ++ r.2 } r.1)

/-- The main loop started at line index `i`. -/
def scan (lines : List Str) (i : Nat) (s : PState) : PState :=
  scanGo lines (lines.drop i) i s

/-- The post-loop flush of `parse_summary`: append the final section if one
is open and nonempty. -/
def finalizeNav (s : PState) : List Y :=
  if truthyName s.curName && !s.items.isEmpty then
    s.nav ++ [Y.map1 (s.curName.getD []) (Y.list s.items)]
  else s.nav

/-- `parse_summary`: run the scan from the first line and flush the final
section.  (The missing-home-page warning only appends to the diagnostics
list and does not affect the returned tree.) -/
def parse_summary (lines : List Str) : List Y :=
  finalizeNav (scan lines 0 initState)

/- ------------------------------------------------------------------ -/
/- The navigation merger `_update_nav_in_place`.                       -/
/- ------------------------------------------------------------------ -/

def isAsciiLetter (c : Char) : Bool :=
  ('a' ≤ c && c ≤ 'z') || ('A' ≤ c && c ≤ 'Z')

def charAt (s : Str) (i : Nat) : Option Char := s.get? i

/-- `^` under `re.MULTILINE`: start of the string or right after a
newline. -/
def lineStartAt (s : Str) (p : Nat) : Bool :=
  p == 0 || charAt s (p-1) == some '\n'

def prefixAt (s : Str) (p : Nat) (pat : Str) : Bool :=
  (s.drop p).take pat.length == pat

/-- A position at which the text could begin a top-level `nav:` field: a
line start followed by the literal `nav:`. -/
def navLineStartAt (c : Str) (p : Nat) : Bool :=
  lineStartAt c p && prefixAt c p "nav:".toList

/-- Newline positions of `s` that are at least `lo`, in ascending order. -/
def nlPosAsc (s : Str) (lo : Nat) : List Nat :=
  (List.range s.length).filter (fun m => decide (lo ≤ m) && charAt s m == some '\n')

/-- The same positions in descending order (the order in which a greedy
`.*\n` under DOTALL proposes them while backtracking). -/
def nlPosDesc (s : Str) (lo : Nat) : List Nat :=
  (nlPosAsc s lo).reverse

/-- Length of the maximal run of Python whitespace starting at `r`. -/
def wsRunLen (s : Str) (r : Nat) : Nat :=
  ((s.drop r).takeWhile pyIsSpace).length

/-- Continuation positions proposed, in engine order, by one iteration of
the branch `[ \t]+.*\n` taken at position `r`: the pattern requires a space
or tab at `r`, after which the greedy DOTALL `.*` lets the terminating
newline be any newline at position at least `r+1`, proposed from the
rightmost inwards.  (Backtracking of `[ \t]+` itself only re-proposes the
same continuation positions and is therefore dropped.) -/
def candsA (s : Str) (r : Nat) : List Nat :=
  if charAt s r == some ' ' || charAt s r == some '\t' then
    (nlPosDesc s (r+1)).map (· + 1)
  else []

/-- Continuation positions proposed, in engine order, by one iteration of
the branch `\s*\n` taken at position `r`: the terminating newline is any
newline inside the maximal whitespace run starting at `r`, proposed from
the rightmost inwards. -/
def candsB (s : Str) (r : Nat) : List Nat :=
  ((((List.range (wsRunLen s r)).map (r + ·)).filter
      (fun q => charAt s q == some '\n')).reverse).map (· + 1)

/-- The lookahead `(?=^[a-zA-Z]|\Z)`. -/
def lookaheadOk (s : Str) (r : Nat) : Bool :=
  r == s.length ||
    (lineStartAt s r &&
      (match charAt s r with
       | some c => isAsciiLetter c
       | none => false))

/-- Backtracking search for `((?:[ \t]+.*\n|\s*\n)*?)(?=^[a-zA-Z]|\Z)`
from position `r`: the lazy star first tries zero further iterations (the
lookahead), then one more iteration through each proposed continuation
position in engine order.  Every candidate is strictly beyond `r`, so fuel
`s.length + 1` can never be exhausted. -/
def match2 (s : Str) : Nat → Nat → Option Nat
  | 0, _ => none
  | fuel+1, r =>
    if lookaheadOk s r then some r
    else
      (candsA s r ++ candsB s r).foldl
        (fun acc c =>
          match acc with
          | some e => some e
          | none => match2 s fuel c) none

/-- Match of `^nav:.*?\n(...)` at a position `p` where `^nav:` is known to
hold: the lazy DOTALL `.*?\n` proposes each newline position at or after
`p+4` from the leftmost outwards; the first one from which the rest of the
pattern succeeds gives the match end. -/
def matchNavAt (s : Str) (fuel p : Nat) : Option Nat :=
  (nlPosAsc s (p+4)).foldl
    (fun acc q =>
      match acc with
      | some e => some e
      | none => match2 s fuel (q+1)) none

/-- Leftmost match of the full nav pattern at a position at or after
`pos`: the engine attempts each start position in turn; an attempt requires
`^` and the literal `nav:` before anything else. -/
def findNav (s : Str) : Nat → Nat → Option (Nat × Nat)
  | 0, _ => none
  | fuel+1, pos =>
    if pos < s.length then
      if lineStartAt s pos && prefixAt s pos "nav:".toList then
        match matchNavAt s (s.length + 1) pos with
        | some e => some (pos, e)
        | none => findNav s fuel (pos+1)
      else findNav s fuel (pos+1)
    else none

/-- `re.subn` over the nav pattern with a constant replacement: replace
every non-overlapping leftmost match, scanning on from each match end
(matches are at least five characters long, so fuel `s.length + 1`
suffices). -/
def subnGo (s repl : Str) : Nat → Nat → Str × Nat
  | 0, pos => (s.drop pos, 0)
  | fuel+1, pos =>
    match findNav s (s.length + 1) pos with
    | none => (s.drop pos, 0)
    | some (p, e) =>
      let r := subnGo s repl fuel e
      ((s.drop pos).take (p - pos) ++ repl ++ r.1, r.2 + 1)

def subnNav (s repl : Str) : Str × Nat := subnGo s repl (s.length + 1) 0

def indentSp (n : Nat) : Str := List.replicate n ' '

/-- Modelled from the spec: the third (deepest) rendering level of the
NavTree serialization.  The serialization itself is performed in the source
by the external library call `yaml.dump(nav, default_flow_style=False,
sort_keys=False, allow_unicode=True, width=1000)`; PyYAML is not part of
this repository, so it is modelled from §4.2 of the spec (each childless
entry a single-key `Title: path` mapping, each entry with children a key
whose value is the ordered list of its children, list items introduced by
`- ` and nested levels indented by two further spaces, scalars rendered
plain).  The parser never nests deeper than this level. -/
def renderL2 : Y → List Str
  | .s v => [indentSp 4 ++ "- ".toList ++ v]
  | .map1 k (.s v) => [indentSp 4 ++ "- ".toList ++ k ++ ": ".toList ++ v]
  | .map1 k _ => [indentSp 4 ++ "- ".toList ++ k ++ ":".toList]
  | .list _ => []

/-- Modelled from the spec: the middle rendering level. -/
def renderL1 : Y → List Str
  | .s v => [indentSp 2 ++ "- ".toList ++ v]
  | .map1 k (.s v) => [indentSp 2 ++ "- ".toList ++ k ++ ": ".toList ++ v]
  | .map1 k (.list l) =>
    (indentSp 2 ++ "- ".toList ++ k ++ ":".toList) :: (l.map renderL2).flatten
  | .map1 k (.map1 k' v) =>
    (indentSp 2 ++ "- ".toList ++ k ++ ":".toList) :: renderL2 (.map1 k' v)
  | .list _ => []

/-- Modelled from the spec: the top rendering level of the NavTree
serialization (see `renderL2`). -/
def renderL0 : Y → List Str
  | .s v => ["- ".toList ++ v]
  | .map1 k (.s v) => ["- ".toList ++ k ++ ": ".toList ++ v]
  | .map1 k (.list l) =>
    ("- ".toList ++ k ++ ":".toList) :: (l.map renderL1).flatten
  | .map1 k (.map1 k' v) =>
    ("- ".toList ++ k ++ ":".toList) :: renderL1 (.map1 k' v)
  | .list _ => []

/-- Modelled from the spec: the serialized NavTree, one line per rendered
item, with a final newline (an empty tree renders as the empty flow
sequence). -/
def yamlDumpNav (nav : List Y) : Str :=
  if nav.isEmpty then "[]\n".toList
  else List.intercalate "\n".toList ((nav.map renderL0).flatten) ++ "\n".toList

/-- `nav_yaml.rstrip().split('\n')` re-indented by two spaces per nonempty
line and re-joined, exactly as in `_update_nav_in_place`. -/
def indentedNavOf (nav : List Y) : Str :=
  let navLines := (pyRstrip (yamlDumpNav nav)).splitOn '\n'
  List.intercalate "\n".toList
    (navLines.map (fun l => if l.isEmpty then [] else "  ".toList ++ l))

/-- `_update_nav_in_place` as a text transformation: substitute every
regex match of the nav block by the freshly serialized block; if there is
no match, append the block as a new field after stripping trailing
whitespace.  (The source function also writes the file and prints a report;
the returned value here is the text written.) -/
def update_nav_in_place (content : Str) (nav : List Y) : Str :=
  let inav := indentedNavOf nav
  let repl := "nav:\n".toList ++ inav ++ "\n\n".toList
  let r := subnNav content repl
  if r.2 = 0 then
    pyRstrip content ++ "\n\n# Navigation\nnav:\n".toList ++ inav ++ "\n".toList
  else r.1

mutual
/-- All target paths occurring in a navigation value: the strings of bare
list elements and of single-key mappings to strings (group keys and section
names are titles, not paths, and are not collected). -/
def leafPathsY : Y → List Str
  | .s v => [v]
  | .map1 _ v => leafPathsY v
  | .list l => leafPathsL l

/-- All target paths occurring in a list of navigation values. -/
def leafPathsL : List Y → List Str
  | [] => []
  | y :: ys => leafPathsY y ++ leafPathsL ys
end

/-- The child entries built by the collection loop from (title, path)
pairs. -/
def childEntriesOf (cs : List (Str × Str)) : List Y :=
  cs.map (fun c => Y.map1 c.1 (Y.s c.2))

/-- Provenance of a target path in the output tree: it is either the
canonical home path `index.md` or was extracted from some line of the
document by the item pattern at indent level 0 or by the child-item pattern
at indent level 1 — never from a line at indent level 2 or deeper. -/
def originOK (lines : List Str) (q : Str) : Prop :=
  q = "index.md".toList ∨ ∃ l ∈ lines, ∃ ws t,
    (matchItem (pyRstrip l) = some (ws, t, q) ∨
      childItemMatch (pyRstrip l) = some (ws, t, q)) ∧ ws.length / 2 ≤ 1

/-- No path anywhere in the given values is a home-page path in the sense
of `_is_home_page`. -/
def noHomePaths (l : List Y) : Prop :=
  ∀ q ∈ leafPathsL l, isHomePage q = false

/-- The home-page predicate as the claim C3 words it: a case-insensitive
match against any of the four conventional names, `index.md` included.
(The source's `_is_home_page` compares `index.md` case-sensitively; this
definition exists only to state the counterexample against the claim.) -/
def claimHomeName (q : Str) : Bool :=
  ["intro.md".toList, "readme.md".toList, "introduction.md".toList,
    "index.md".toList].contains (pyLower q)

/- ------------------------------------------------------------------ -/
/- Step lemmas for the main loop.                                      -/
/- ------------------------------------------------------------------ -/

theorem scan_cons (lines : List Str) (i : Nat) (s : PState)
    (h : i < lines.length) :
    scan lines i s = scanGo lines (lines[i] :: lines.drop (i+1)) i s := by
  unfold scan
  rw [List.drop_eq_getElem_cons h]

theorem scan_stop (lines : List Str) (i : Nat) (s : PState)
    (h : lines.length ≤ i) : scan lines i s = s := by
  unfold scan
  rw [List.drop_eq_nil_of_le h]
  rfl

theorem scan_skip_of_blank (lines : List Str) (i : Nat) (s : PState)
    (h : i < lines.length) (hb : pyRstrip lines[i] = []) :
    scan lines i s = scan lines (i+1) s := by
  rw [scan_cons lines i s h]
  simp only [scanGo, hb, if_pos rfl]
  rfl

theorem scan_skip_of_processed (lines : List Str) (i : Nat) (s : PState)
    (h : i < lines.length) (hb : pyRstrip lines[i] ≠ [])
    (hp : (i+1) ∈ s.processed) :
    scan lines i s = scan lines (i+1) s := by
  rw [scan_cons lines i s h]
  simp only [scanGo, if_neg hb, if_pos hp]
  rfl

theorem scan_heading_step (lines : List Str) (i : Nat) (s : PState)
    (h : i < lines.length) (hb : pyRstrip lines[i] ≠ [])
    (hp : (i+1) ∉ s.processed)
    (hh : (pyRstrip lines[i]).headD ' ' = '#') :
    scan lines i s = scan lines (i+1) (headingStep s (pyRstrip lines[i])) := by
  rw [scan_cons lines i s h]
  simp only [scanGo, if_neg hb, if_neg hp, if_pos hh]
  rfl

theorem scan_skip_of_nomatch (lines : List Str) (i : Nat) (s : PState)
    (h : i < lines.length) (hb : pyRstrip lines[i] ≠ [])
    (hp : (i+1) ∉ s.processed)
    (hh : (pyRstrip lines[i]).headD ' ' ≠ '#')
    (hm : matchItem (pyRstrip lines[i]) = none) :
    scan lines i s = scan lines (i+1) s := by
  rw [scan_cons lines i s h]
  simp only [scanGo, if_neg hb, if_neg hp, if_neg hh, hm]
  rfl

theorem scan_skip_of_indent (lines : List Str) (i : Nat) (s : PState)
    (ws title path : Str)
    (h : i < lines.length) (hb : pyRstrip lines[i] ≠ [])
    (hp : (i+1) ∉ s.processed)
    (hh : (pyRstrip lines[i]).headD ' ' ≠ '#')
    (hm : matchItem (pyRstrip lines[i]) = some (ws, title, path))
    (hl : ws.length / 2 > 0) :
    scan lines i s = scan lines (i+1) s := by
  rw [scan_cons lines i s h]
  simp only [scanGo, if_neg hb, if_neg hp, if_neg hh, hm, if_pos hl]
  rfl

theorem scan_home_step (lines : List Str) (i : Nat) (s : PState)
    (ws title path : Str)
    (h : i < lines.length) (hb : pyRstrip lines[i] ≠ [])
    (hp : (i+1) ∉ s.processed)
    (hh : (pyRstrip lines[i]).headD ' ' ≠ '#')
    (hm : matchItem (pyRstrip lines[i]) = some (ws, title, path))
    (hl : ¬ ws.length / 2 > 0)
    (hhome : isHomePage path = true) :
    scan lines i s = scan lines (i+1) (homeStep s path) := by
  rw [scan_cons lines i s h]
  simp only [scanGo, if_neg hb, if_neg hp, if_neg hh, hm, if_neg hl, hhome,
    if_pos rfl]
  rfl

theorem scan_item_step (lines : List Str) (i : Nat) (s : PState)
    (ws title path : Str)
    (h : i < lines.length) (hb : pyRstrip lines[i] ≠ [])
    (hp : (i+1) ∉ s.processed)
    (hh : (pyRstrip lines[i]).headD ' ' ≠ '#')
    (hm : matchItem (pyRstrip lines[i]) = some (ws, title, path))
    (hl : ¬ ws.length / 2 > 0)
    (hhome : isHomePage path = false) :
    scan lines i s =
      scan lines (i+1)
        (appendEntry
          { s with processed :=
              s.processed ++ (parseNavItem lines i title path (ws.length / 2)).2 }
          (parseNavItem lines i title path (ws.length / 2)).1) := by
  rw [scan_cons lines i s h]
  simp only [scanGo, if_neg hb, if_neg hp, if_neg hh, hm, if_neg hl, hhome]
  rfl

/- ------------------------------------------------------------------ -/
/- Facts about the list-item pattern.                                  -/
/- ------------------------------------------------------------------ -/

theorem pathLoop_append (acc xs rest : Str) (h1 : ')' ∉ xs) (h2 : '\n' ∉ xs) :
    pathLoop acc (xs ++ ')' :: rest) = some (acc.reverse ++ xs) := by
  induction xs generalizing acc with
  | nil => simp [pathLoop]
  | cons c xs ih =>
    have hc1 : c ≠ ')' := fun he => h1 (he ▸ List.mem_cons_self c xs)
    have hc2 : c ≠ '\n' := fun he => h2 (he ▸ List.mem_cons_self c xs)
    have h1' : ')' ∉ xs := fun hm => h1 (List.mem_cons_of_mem c hm)
    have h2' : '\n' ∉ xs := fun hm => h2 (List.mem_cons_of_mem c hm)
    have step : pathLoop acc ((c :: xs) ++ ')' :: rest) =
        pathLoop (c :: acc) (xs ++ ')' :: rest) := by
      simp [pathLoop, hc1, hc2]
    rw [step, ih (c :: acc) h1' h2']
    simp

theorem pathScan_append (p rest : Str) (hnp : p ≠ []) (h1 : ')' ∉ p)
    (h2 : '\n' ∉ p) : pathScan (p ++ ')' :: rest) = some p := by
  cases p with
  | nil => exact absurd rfl hnp
  | cons c p' =>
    have hc2 : c ≠ '\n' := fun he => h2 (he ▸ List.mem_cons_self c p')
    have h1' : ')' ∉ p' := fun hm => h1 (List.mem_cons_of_mem c hm)
    have h2' : '\n' ∉ p' := fun hm => h2 (List.mem_cons_of_mem c hm)
    have step : pathScan ((c :: p') ++ ')' :: rest) =
        pathLoop [c] (p' ++ ')' :: rest) := by
      simp [pathScan, hc2]
    rw [step, pathLoop_append [c] p' rest h1' h2']
    simp

theorem titleLoop_append (acc t p rest : Str) (h1 : ']' ∉ t) (h2 : '\n' ∉ t)
    (hnp : p ≠ []) (h3 : ')' ∉ p) (h4 : '\n' ∉ p) :
    titleLoop acc (t ++ ']' :: '(' :: (p ++ ')' :: rest)) =
      some (acc.reverse ++ t, p) := by
  induction t generalizing acc with
  | nil =>
    have step : titleLoop acc ([] ++ ']' :: '(' :: (p ++ ')' :: rest)) =
        match pathScan (p ++ ')' :: rest) with
        | some q => some (acc.reverse, q)
        | none => titleLoop (']' :: acc) ('(' :: (p ++ ')' :: rest)) := by
      simp [titleLoop]
    rw [step, pathScan_append p rest hnp h3 h4]
    simp
  | cons c t' ih =>
    have hc1 : c ≠ ']' := fun he => h1 (he ▸ List.mem_cons_self c t')
    have hc2 : c ≠ '\n' := fun he => h2 (he ▸ List.mem_cons_self c t')
    have h1' : ']' ∉ t' := fun hm => h1 (List.mem_cons_of_mem c hm)
    have h2' : '\n' ∉ t' := fun hm => h2 (List.mem_cons_of_mem c hm)
    have step : titleLoop acc ((c :: t') ++ ']' :: '(' :: (p ++ ')' :: rest)) =
        titleLoop (c :: acc) (t' ++ ']' :: '(' :: (p ++ ')' :: rest)) := by
      simp [titleLoop, hc1, hc2]
    rw [step, ih (c :: acc) h1' h2']
    simp

theorem bracketTail_append (t p : Str) (ht : t ≠ []) (hp : p ≠ [])
    (h1 : ']' ∉ t) (h2 : '\n' ∉ t) (h3 : ')' ∉ p) (h4 : '\n' ∉ p) :
    bracketTail (t ++ ']' :: '(' :: (p ++ [')'])) = some (t, p) := by
  cases t with
  | nil => exact absurd rfl ht
  | cons c t' =>
    have hc2 : c ≠ '\n' := fun he => h2 (he ▸ List.mem_cons_self c t')
    have h1' : ']' ∉ t' := fun hm => h1 (List.mem_cons_of_mem c hm)
    have h2' : '\n' ∉ t' := fun hm => h2 (List.mem_cons_of_mem c hm)
    have step : bracketTail ((c :: t') ++ ']' :: '(' :: (p ++ [')'])) =
        titleLoop [c] (t' ++ ']' :: '(' :: (p ++ ')' :: [])) := by
      simp [bracketTail, hc2]
    rw [step, titleLoop_append [c] t' p [] h1' h2' hp h3 h4]
    simp

/-- A line of the bare form `[Title](path)` — no leading `- `, no indent —
is matched by the item pattern with whitespace group empty, provided title
and path are free of the delimiter characters that would end the lazy
groups early. -/
theorem matchItem_plain (t p : Str) (ht : t ≠ []) (hp : p ≠ [])
    (h1 : ']' ∉ t) (h2 : '\n' ∉ t) (h3 : ')' ∉ p) (h4 : '\n' ∉ p) :
    matchItem ('[' :: (t ++ ']' :: '(' :: (p ++ [')']))) = some ([], t, p) := by
  have hws : ('[' :: (t ++ ']' :: '(' :: (p ++ [')']))).takeWhile pyIsSpace
      = [] := by
    rw [List.takeWhile_cons]
    simp [pyIsSpace]
  have hdw : ('[' :: (t ++ ']' :: '(' :: (p ++ [')']))).dropWhile pyIsSpace
      = '[' :: (t ++ ']' :: '(' :: (p ++ [')'])) := by
    rw [List.dropWhile_cons]
    simp [pyIsSpace]
  have htake : (('[' : Char) :: (t ++ ']' :: '(' :: (p ++ [')']))).take 2 ≠
      ['-', ' '] := by
    rw [List.take_succ_cons]
    simp
  unfold matchItem
  simp only [hws, hdw]
  rw [if_neg htake]
  show (match bracketTail (t ++ ']' :: '(' :: (p ++ [')'])) with
        | some (a, b) => some (([] : Str), a, b)
        | none => none) = some ([], t, p)
  rw [bracketTail_append t p ht hp h1 h2 h3 h4]

theorem takeWhile_append_of_stop (p : Char → Bool) (a b : List Char)
    (h : a.dropWhile p ≠ []) : (a ++ b).takeWhile p = a.takeWhile p := by
  induction a with
  | nil => simp [List.dropWhile] at h
  | cons c a' ih =>
    by_cases hp : p c
    · rw [List.dropWhile_cons] at h
      simp only [hp, if_pos] at h
      simp only [List.cons_append, List.takeWhile_cons, hp]
      rw [ih h]
    · simp only [List.cons_append, List.takeWhile_cons]
      simp [hp]

theorem dropWhile_append_of_stop (p : Char → Bool) (a b : List Char)
    (h : a.dropWhile p ≠ []) : (a ++ b).dropWhile p = a.dropWhile p ++ b := by
  induction a with
  | nil => simp [List.dropWhile] at h
  | cons c a' ih =>
    by_cases hp : p c
    · rw [List.dropWhile_cons] at h
      simp only [hp, if_pos] at h
      simp [List.cons_append, List.dropWhile_cons, hp, ih h]
    · simp only [List.cons_append, List.dropWhile_cons]
      simp [hp]

theorem dropWhile_idem (p : Char → Bool) (x : List Char) :
    (x.dropWhile p).dropWhile p = x.dropWhile p := by
  induction x with
  | nil => simp
  | cons c x' ih =>
    by_cases hp : p c
    · simp [List.dropWhile_cons, hp, ih]
    · simp [List.dropWhile_cons, hp]

/-- Every line equals its `rstrip` followed by trailing whitespace. -/
theorem pyRstrip_decomp (l : Str) :
    ∃ t, l = pyRstrip l ++ t ∧ ∀ c ∈ t, pyIsSpace c = true := by
  refine ⟨(l.reverse.takeWhile pyIsSpace).reverse, ?_, ?_⟩
  · unfold pyRstrip
    conv_lhs =>
      rw [← List.reverse_reverse l,
        ← List.takeWhile_append_dropWhile (p := pyIsSpace) (l := l.reverse)]
    rw [List.reverse_append]
  · intro c hc
    rw [List.mem_reverse] at hc
    exact List.mem_takeWhile_imp hc

theorem pyRstrip_idem (l : Str) : pyRstrip (pyRstrip l) = pyRstrip l := by
  unfold pyRstrip
  rw [List.reverse_reverse, dropWhile_idem]

/-- Shape of a successful child-item match: the whitespace group is the
line's maximal whitespace prefix and the remainder begins with `- [`. -/
theorem childItemMatch_shape (l ws t p : Str)
    (h : childItemMatch l = some (ws, t, p)) :
    ws = l.takeWhile pyIsSpace ∧
      ∃ r, l.dropWhile pyIsSpace = '-' :: ' ' :: '[' :: r := by
  simp only [childItemMatch] at h
  split at h
  · rename_i after heq
    split at h
    · simp only [Option.some.injEq, Prod.mk.injEq] at h
      exact ⟨h.1.symm, after, heq⟩
    · simp at h
  · simp at h

/-- The one-line lookahead succeeds on the raw line whenever the child-item
pattern matches the stripped line, with the same whitespace group (the raw
line is the stripped line plus trailing whitespace, which the prefix
patterns never reach). -/
theorem childLookahead_of_rstrip (l ws t p : Str)
    (h : childItemMatch (pyRstrip l) = some (ws, t, p)) :
    childLookahead l = some ws.length := by
  obtain ⟨hws, r, hdw⟩ := childItemMatch_shape _ _ _ _ h
  obtain ⟨tl, hdecomp, _⟩ := pyRstrip_decomp l
  have hstop : (pyRstrip l).dropWhile pyIsSpace ≠ [] := by rw [hdw]; simp
  have htw : l.takeWhile pyIsSpace = (pyRstrip l).takeWhile pyIsSpace := by
    conv_lhs => rw [hdecomp]
    exact takeWhile_append_of_stop _ _ _ hstop
  have hdw2 : l.dropWhile pyIsSpace = ('-' :: ' ' :: '[' :: r) ++ tl := by
    conv_lhs => rw [hdecomp]
    rw [dropWhile_append_of_stop _ _ _ hstop, hdw]
  unfold childLookahead
  rw [hdw2, htw, hws]
  simp

/-- A line matched by the child-item pattern is neither blank nor a
heading line. -/
theorem childItemMatch_not_heading (l ws t p : Str)
    (h : childItemMatch l = some (ws, t, p)) :
    l ≠ [] ∧ l.headD ' ' ≠ '#' := by
  obtain ⟨_, r, hdw⟩ := childItemMatch_shape _ _ _ _ h
  cases l with
  | nil => simp at hdw
  | cons c l' =>
    refine ⟨by simp, ?_⟩
    by_cases hp : pyIsSpace c
    · intro he
      rw [List.headD_cons] at he
      subst he
      exact absurd hp (by decide)
    · rw [List.dropWhile_cons] at hdw
      simp only [hp] at hdw
      simp only [Bool.false_eq_true, if_false] at hdw
      injection hdw with hc _
      simp [hc]

/-- A line matched by the child-item pattern (mandatory `- `) is also
matched, with the same groups, by the item pattern (optional `- `). -/
theorem childItemMatch_imp_matchItem (l ws t p : Str)
    (h : childItemMatch l = some (ws, t, p)) :
    matchItem l = some (ws, t, p) := by
  simp only [childItemMatch] at h
  split at h
  · rename_i after heq
    simp only [matchItem, heq]
    simpa using h
  · simp at h

/-- The whitespace group of a successful item match is the line's maximal
whitespace prefix. -/
theorem matchItem_shape (l ws t p : Str) (h : matchItem l = some (ws, t, p)) :
    ws = l.takeWhile pyIsSpace := by
  simp only [matchItem] at h
  split at h
  · split at h
    · simp only [Option.some.injEq, Prod.mk.injEq] at h
      exact h.1.symm
    · simp at h
  · simp at h

/-- A line matched by the item pattern is nonempty and is not a heading
line. -/
theorem matchItem_not_heading (l ws t p : Str)
    (h : matchItem l = some (ws, t, p)) :
    l ≠ [] ∧ l.headD ' ' ≠ '#' := by
  have hcases : ∃ after,
      l.dropWhile pyIsSpace = '-' :: ' ' :: '[' :: after ∨
      l.dropWhile pyIsSpace = '[' :: after := by
    simp only [matchItem] at h
    by_cases htake : (l.dropWhile pyIsSpace).take 2 = ['-', ' ']
    · rw [if_pos htake] at h
      split at h
      · rename_i after heq
        refine ⟨after, Or.inl ?_⟩
        have h2 := List.take_append_drop 2 (l.dropWhile pyIsSpace)
        rw [htake, heq] at h2
        simpa using h2.symm
      · simp at h
    · rw [if_neg htake] at h
      split at h
      · rename_i after heq
        exact ⟨after, Or.inr heq⟩
      · simp at h
  obtain ⟨after, hdw⟩ := hcases
  cases l with
  | nil => cases hdw with
    | inl h' => simp at h'
    | inr h' => simp at h'
  | cons c l' =>
    refine ⟨by simp, ?_⟩
    by_cases hp : pyIsSpace c
    · intro he
      rw [List.headD_cons] at he
      subst he
      exact absurd hp (by decide)
    · rw [List.dropWhile_cons] at hdw
      simp only [hp, Bool.false_eq_true, if_false] at hdw
      cases hdw with
      | inl h' => injection h' with hc _; simp [hc]
      | inr h' => injection h' with hc _; simp [hc]

/-- C10: the optional-dash alternative of the item pattern is applied on
every line of the document, not only the first: at any line index `i`, a
bare `[Title](path)` line at indent 0 is accepted and becomes a top-level
entry (stated here for a childless entry: the next line, if any, fails the
child lookahead, and the path is not a section-index path). -/
theorem C10_dashless_any_line (lines : List Str) (i : Nat) (s : PState)
    (t p : Str)
    (h : i < lines.length)
    (hline : pyRstrip lines[i] = '[' :: (t ++ ']' :: '(' :: (p ++ [')'])))
    (ht : t ≠ []) (hp : p ≠ [])
    (h1 : ']' ∉ t) (h2 : '\n' ∉ t) (h3 : ')' ∉ p) (h4 : '\n' ∉ p)
    (hproc : (i+1) ∉ s.processed)
    (hhome : isHomePage p = false)
    (hnext : i + 1 < lines.length → childLookahead (lines.getD (i+1) []) = none)
    (hidx : "/index.md".toList.isSuffixOf p = false) :
    scan lines i s = scan lines (i+1) (appendEntry s (Y.map1 t (Y.s p))) := by
  have hm : matchItem (pyRstrip lines[i]) = some ([], t, p) := by
    rw [hline]; exact matchItem_plain t p ht hp h1 h2 h3 h4
  have hb : pyRstrip lines[i] ≠ [] := by rw [hline]; simp
  have hh : (pyRstrip lines[i]).headD ' ' ≠ '#' := by rw [hline]; simp
  have hl : ¬ ([] : Str).length / 2 > 0 := by simp
  rw [scan_item_step lines i s [] t p h hb hproc hh hm hl hhome]
  have hpn : parseNavItem lines i t p (([] : Str).length / 2) =
      (Y.map1 t (Y.s p), []) := by
    unfold parseNavItem
    have hchild : (if i + 1 < lines.length then
        match childLookahead (lines.getD (i+1) []) with
        | some w => decide (w / 2 > ([] : Str).length / 2)
        | none => false
      else false) = false := by
      by_cases hlt : i + 1 < lines.length
      · rw [if_pos hlt, hnext hlt]
      · rw [if_neg hlt]
    simp only [hchild, hidx, Bool.or_self, Bool.false_eq_true, if_false]
  rw [hpn]
  simp

/-- C9: a `Summary` heading occurring while a section is open with
accumulated entries flushes those entries as a group under the open
section's name but leaves the open section name in place, so later link
lines are accumulated under the same name again and emitted as an
additional group with that name (second conjunct: a concrete document on
which two groups named `S1` are produced). -/
theorem C9_summary_flushes_but_keeps_name :
    (∀ (lines : List Str) (i : Nat) (s : PState) (h : i < lines.length),
      (i+1) ∉ s.processed →
      (pyRstrip lines[i]).headD ' ' = '#' →
      pyLower (pyStrip ((pyRstrip lines[i]).dropWhile (· = '#'))) =
        "summary".toList →
      truthyName s.curName = true → s.items.isEmpty = false →
      scan lines i s =
        scan lines (i+1)
          { s with
              nav := s.nav ++ [Y.map1 (s.curName.getD []) (Y.list s.items)],
              items := [] }) ∧
    parse_summary
        (["# S1", "- [A](a.md)", "# Summary", "- [B](b.md)"].map
          String.toList) =
      [Y.map1 "S1".toList (Y.list [Y.map1 "A".toList (Y.s "a.md".toList)]),
       Y.map1 "S1".toList (Y.list [Y.map1 "B".toList (Y.s "b.md".toList)])] := by
  constructor
  · intro lines i s h hproc hh hsum hname hitems
    have hb : pyRstrip lines[i] ≠ [] := by
      intro he
      rw [he] at hh
      simp at hh
    rw [scan_heading_step lines i s h hb hproc hh]
    unfold headingStep flushSection
    simp [hname, hitems, hsum]
  · rfl

/-- C7: the parser is permissive and total.  First conjunct: a line that is
not blank, not a heading, and does not match the item pattern is skipped
with the state unchanged.  Second conjunct: a document none of whose lines
is a heading or matches the item pattern parses to the empty tree (blank
lines included, since the empty line matches neither pattern). -/
theorem C7_parser_permissive_total :
    (∀ (lines : List Str) (i : Nat) (s : PState) (h : i < lines.length),
      pyRstrip lines[i] ≠ [] →
      (pyRstrip lines[i]).headD ' ' ≠ '#' →
      matchItem (pyRstrip lines[i]) = none →
      (i+1) ∉ s.processed →
      scan lines i s = scan lines (i+1) s) ∧
    (∀ lines : List Str,
      (∀ l ∈ lines, matchItem (pyRstrip l) = none ∧
        (pyRstrip l).headD ' ' ≠ '#') →
      parse_summary lines = []) := by
  constructor
  · intro lines i s h hb hh hm hp
    exact scan_skip_of_nomatch lines i s h hb hp hh hm
  · intro lines hall
    have key : ∀ n i, lines.length - i ≤ n → scan lines i initState = initState := by
      intro n
      induction n with
      | zero =>
        intro i hi
        exact scan_stop lines i initState (by omega)
      | succ n ih =>
        intro i hi
        by_cases h : i < lines.length
        · have hmem : lines[i] ∈ lines := List.getElem_mem h
          have hli := hall lines[i] hmem
          by_cases hb : pyRstrip lines[i] = []
          · rw [scan_skip_of_blank lines i initState h hb]
            exact ih (i+1) (by omega)
          · have hp : (i+1) ∉ initState.processed := by
              simp [initState]
            rw [scan_skip_of_nomatch lines i initState h hb hp hli.2 hli.1]
            exact ih (i+1) (by omega)
        · exact scan_stop lines i initState (by omega)
    unfold parse_summary
    rw [key (lines.length) 0 (by omega)]
    rfl

theorem range_map_succ_shift (m a : Nat) :
    (List.range (m+1)).map (fun idx => a + idx) =
      a :: (List.range m).map (fun idx => a + 1 + idx) := by
  rw [List.range_succ_eq_map, List.map_cons, List.map_map]
  have hf : ((fun idx => a + idx) ∘ Nat.succ) = (fun idx => a + 1 + idx) :=
    funext (fun x => by simp only [Function.comp_apply]; omega)
  rw [hf]
  simp

theorem collectKids_stop (lines : List Str) (j : Nat)
    (hterm : lines.length = j ∨
      (pyRstrip (lines.getD j [])).headD ' ' = '#' ∨
      ∃ ws t p, childItemMatch (pyRstrip (lines.getD j [])) = some (ws, t, p) ∧
        ws.length / 2 = 0) :
    collectKids lines j 0 = ([], []) := by
  by_cases hj : j < lines.length
  · have hdrop : lines.drop j = lines[j] :: lines.drop (j+1) :=
      List.drop_eq_getElem_cons hj
    have hgetD : lines.getD j [] = lines[j] := List.getD_eq_getElem lines [] hj
    unfold collectKids
    rw [hdrop]
    rcases hterm with hlen | hhead | ⟨ws, t, p, hcm, hci⟩
    · omega
    · rw [hgetD] at hhead
      have hhead' : (List.head? (pyRstrip lines[j])).getD ' ' = '#' := by
        simpa using hhead
      simp [collectGo, hhead']
    · rw [hgetD] at hcm
      obtain ⟨hne, hnh⟩ := childItemMatch_not_heading _ _ _ _ hcm
      simp only [collectGo, if_neg hnh, if_neg hne, hcm]
      rw [if_pos (by omega : ws.length / 2 ≤ 0)]
  · unfold collectKids
    rw [List.drop_eq_nil_of_le (by omega)]
    rfl

/-- Characterization of the child-collection loop on a run of consecutive
level-1 child lines followed by a stopping line (end of document, heading,
or level-0 child-pattern line): exactly those children are collected, each
consumed line recorded by its 1-indexed number. -/
theorem collectKids_rows (lines : List Str) (cs : List (Str × Str)) (j : Nat)
    (hrows : ∀ idx, idx < cs.length → ∃ ws : Str, ws.length / 2 = 1 ∧
      childItemMatch (pyRstrip (lines.getD (j + idx) [])) =
        some (ws, (cs.getD idx ([], [])).1, (cs.getD idx ([], [])).2))
    (hin : j + cs.length ≤ lines.length)
    (hterm : lines.length = j + cs.length ∨
      (pyRstrip (lines.getD (j + cs.length) [])).headD ' ' = '#' ∨
      ∃ ws t p,
        childItemMatch (pyRstrip (lines.getD (j + cs.length) [])) =
          some (ws, t, p) ∧ ws.length / 2 = 0) :
    collectKids lines j 0 =
      (childEntriesOf cs, (List.range cs.length).map (fun idx => j + 1 + idx)) := by
  induction cs generalizing j with
  | nil =>
    simp only [childEntriesOf, List.map_nil, List.length_nil, List.range_zero]
    simp only [List.length_nil, Nat.add_zero] at hterm
    exact collectKids_stop lines j hterm
  | cons c cs' ih =>
    have hj : j < lines.length := by
      have := hin
      simp only [List.length_cons] at this
      omega
    obtain ⟨ws, hws1, hcm⟩ := hrows 0 (by simp)
    simp only [Nat.add_zero, List.getD_cons_zero] at hcm
    have hgetD : lines.getD j [] = lines[j] := List.getD_eq_getElem lines [] hj
    rw [hgetD] at hcm
    obtain ⟨hne, hnh⟩ := childItemMatch_not_heading _ _ _ _ hcm
    have hdrop : lines.drop j = lines[j] :: lines.drop (j+1) :=
      List.drop_eq_getElem_cons hj
    have hrec : collectGo (lines.drop (j+1)) (j+1) 0 = collectKids lines (j+1) 0 := rfl
    unfold collectKids
    rw [hdrop]
    simp only [collectGo, if_neg hnh, if_neg hne, hcm]
    rw [if_neg (by omega : ¬ ws.length / 2 ≤ 0), if_pos (by omega : ws.length / 2 = 0 + 1)]
    rw [hrec, ih (j+1) ?_ ?_ ?_]
    · simp only [childEntriesOf, List.map_cons, List.length_cons]
      refine Prod.ext rfl ?_
      simp only
      rw [range_map_succ_shift]
    · intro idx hidx
      obtain ⟨ws', hws', hcm'⟩ := hrows (idx+1) (by simpa using Nat.succ_lt_succ hidx)
      refine ⟨ws', hws', ?_⟩
      have harith : j + (idx + 1) = j + 1 + idx := by omega
      rw [harith] at hcm'
      simpa using hcm'
    · simp only [List.length_cons] at hin
      omega
    · simp only [List.length_cons] at hterm
      have harith : j + (cs'.length + 1) = j + 1 + cs'.length := by omega
      rw [harith] at hterm
      exact hterm

theorem pathLoop_ne_nil (r : Str) (acc : Str) (p : Str) (hacc : acc ≠ [])
    (h : pathLoop acc r = some p) : p ≠ [] := by
  induction r generalizing acc with
  | nil => simp [pathLoop] at h
  | cons c rest ih =>
    simp only [pathLoop] at h
    by_cases hc : c = ')'
    · rw [if_pos hc] at h
      injection h with h'
      subst h'
      simpa using hacc
    · rw [if_neg hc] at h
      by_cases hn : c = '\n'
      · rw [if_pos hn] at h; cases h
      · rw [if_neg hn] at h
        exact ih (c :: acc) (by simp) h

theorem pathScan_ne_nil (r : Str) (p : Str) (h : pathScan r = some p) :
    p ≠ [] := by
  cases r with
  | nil => simp [pathScan] at h
  | cons c rest =>
    simp only [pathScan] at h
    by_cases hn : c = '\n'
    · rw [if_pos hn] at h; cases h
    · rw [if_neg hn] at h
      exact pathLoop_ne_nil rest [c] p (by simp) h

theorem titleLoop_path_ne_nil (r : Str) (acc t p : Str)
    (h : titleLoop acc r = some (t, p)) : p ≠ [] := by
  induction r generalizing acc with
  | nil => simp [titleLoop] at h
  | cons c rest ih =>
    simp only [titleLoop] at h
    by_cases hb : c = ']' ∧ rest.headD ' ' = '('
    · rw [if_pos hb] at h
      revert h
      split
      · rename_i q hq
        intro h
        injection h with h'
        have h2 : q = p := congrArg Prod.snd h'
        rw [← h2]
        exact pathScan_ne_nil _ _ hq
      · intro h
        exact ih (c :: acc) h
    · rw [if_neg hb] at h
      by_cases hn : c = '\n'
      · rw [if_pos hn] at h; cases h
      · rw [if_neg hn] at h
        exact ih (c :: acc) h

theorem matchItem_path_ne_nil (l ws t p : Str)
    (h : matchItem l = some (ws, t, p)) : p ≠ [] := by
  simp only [matchItem] at h
  split at h
  · rename_i after heq
    split at h
    · rename_i a b hbt
      simp only [Option.some.injEq, Prod.mk.injEq] at h
      have hbp : b = p := h.2.2
      subst hbp
      cases l' : after with
      | nil => rw [l'] at hbt; simp [bracketTail] at hbt
      | cons c cr =>
        rw [l'] at hbt
        simp only [bracketTail] at hbt
        by_cases hn : c = '\n'
        · rw [if_pos hn] at hbt; cases hbt
        · rw [if_neg hn] at hbt
          exact titleLoop_path_ne_nil cr [c] a b hbt
    · simp at h
  · simp at h

/-- A fully blank line (its rstrip is empty) fails the child lookahead. -/
theorem childLookahead_of_blank (l : Str) (h : pyRstrip l = []) :
    childLookahead l = none := by
  obtain ⟨t, hdec, hall⟩ := pyRstrip_decomp l
  rw [h, List.nil_append] at hdec
  have hdw : l.dropWhile pyIsSpace = [] := by
    rw [hdec]
    exact List.dropWhile_eq_nil_iff.mpr (by intro x hx; exact hall x hx)
  unfold childLookahead
  rw [hdw]
  simp

/-- `_parse_nav_item_with_tracking` on a parent item: the lookahead
succeeds with a positive indent, so the children are collected and the
item's own path is listed first (its path being nonempty and not ending in
`/`). -/
theorem parseNavItem_parent (lines : List Str) (i : Nat) (t p : Str) (w : Nat)
    (hk1 : i + 1 < lines.length)
    (hla : childLookahead (lines.getD (i+1) []) = some w)
    (hw : 0 < w / 2)
    (hpne : p ≠ []) (hslash : ['/'].isSuffixOf p = false) :
    parseNavItem lines i t p 0 =
      (Y.map1 t (Y.list (Y.s p :: (collectKids lines (i+1) 0).1)),
        (collectKids lines (i+1) 0).2) := by
  unfold parseNavItem
  simp only [if_pos hk1, hla]
  have hc : (decide (w / 2 > 0) || "/index.md".toList.isSuffixOf p) = true := by
    simp [hw]
  simp only [hc, if_pos rfl]
  have hcond : p ≠ [] ∧ ¬ (['/'].isSuffixOf p = true) :=
    ⟨hpne, by rw [hslash]; simp⟩
  rw [if_pos hcond]
  simp

/-- `_parse_nav_item_with_tracking` on a childless item: the lookahead
fails (or reports indent 0) and the path does not end in `/index.md`, so
the item is a plain `title: path` page consuming no lines. -/
theorem parseNavItem_leaf (lines : List Str) (i : Nat) (t p : Str)
    (hnc : i + 1 < lines.length →
      childLookahead (lines.getD (i+1) []) = none ∨
      ∃ w, childLookahead (lines.getD (i+1) []) = some w ∧ w / 2 = 0)
    (hidx : "/index.md".toList.isSuffixOf p = false) :
    parseNavItem lines i t p 0 = (Y.map1 t (Y.s p), []) := by
  have hhc : (if i + 1 < lines.length then
      match childLookahead (lines.getD (i+1) []) with
      | some w => decide (w / 2 > 0)
      | none => false
    else false) = false := by
    by_cases hlt : i + 1 < lines.length
    · rw [if_pos hlt]
      rcases hnc hlt with hnone | ⟨w, hsome, hw⟩
      · rw [hnone]
      · rw [hsome]
        simp [hw]
    · rw [if_neg hlt]
  unfold parseNavItem
  simp only [hhc]
  rw [Bool.false_or, hidx]
  simp

/-- C5 counterexample: a level-0 entry whose path ends in `/` keeps its
level-1 children but does not list its own path before them, so the claim's
parenthetical "listed after the entry's own path" fails on this input. -/
theorem C5_counterexample :
    parse_summary (["- [A](dir/)", "  - [B](b.md)"].map String.toList) =
      [Y.map1 "A".toList (Y.list [Y.map1 "B".toList (Y.s "b.md".toList)])] ∧
    "dir/".toList ∉
      leafPathsL
        (parse_summary (["- [A](dir/)", "  - [B](b.md)"].map String.toList)) :=
  ⟨rfl, by decide⟩

/-- C5 (amended): a level-0 link line immediately followed by a contiguous
run of level-1 child lines (ended by the end of document, a heading, or a
level-0 child-pattern line) yields one entry whose children are exactly
those level-1 entries in order, listed after the entry's own path when that
path does not end in `/`; the child lines are recorded as consumed, and
(second conjunct) a consumed line is skipped by the main scan, so none of
the children reappears as an independent top-level entry. -/
theorem C5_amended (lines : List Str) (k : Nat) (s : PState)
    (wsk t p : Str) (cs : List (Str × Str))
    (hk : k < lines.length)
    (hm : matchItem (pyRstrip lines[k]) = some (wsk, t, p))
    (hlvl : wsk.length / 2 = 0)
    (hhome : isHomePage p = false)
    (hslash : ['/'].isSuffixOf p = false)
    (hproc : (k+1) ∉ s.processed)
    (hcs : cs ≠ [])
    (hrows : ∀ idx, idx < cs.length → ∃ ws : Str, ws.length / 2 = 1 ∧
      childItemMatch (pyRstrip (lines.getD (k + 1 + idx) [])) =
        some (ws, (cs.getD idx ([], [])).1, (cs.getD idx ([], [])).2))
    (hin : k + 1 + cs.length ≤ lines.length)
    (hterm : lines.length = k + 1 + cs.length ∨
      (pyRstrip (lines.getD (k + 1 + cs.length) [])).headD ' ' = '#' ∨
      ∃ ws' t' p',
        childItemMatch (pyRstrip (lines.getD (k + 1 + cs.length) [])) =
          some (ws', t', p') ∧ ws'.length / 2 = 0) :
    scan lines k s =
      scan lines (k+1)
        (appendEntry
          { s with processed := s.processed ++
              (List.range cs.length).map (fun idx => k + 2 + idx) }
          (Y.map1 t (Y.list (Y.s p :: childEntriesOf cs)))) ∧
    (∀ (s' : PState) (idx : Nat), idx < cs.length →
      (k + 2 + idx) ∈ s'.processed →
      scan lines (k + 1 + idx) s' = scan lines (k + 2 + idx) s') := by
  have hcollect : collectKids lines (k+1) 0 =
      (childEntriesOf cs,
        (List.range cs.length).map (fun idx => k + 1 + 1 + idx)) :=
    collectKids_rows lines cs (k+1) hrows hin hterm
  constructor
  · obtain ⟨hb, hnh⟩ := matchItem_not_heading _ _ _ _ hm
    have hl : ¬ wsk.length / 2 > 0 := by omega
    rw [scan_item_step lines k s wsk t p hk hb hproc hnh hm hl hhome]
    obtain ⟨ws0, hws0, hcm0⟩ := hrows 0 (by
      cases cs with
      | nil => exact absurd rfl hcs
      | cons a b => simp)
    rw [Nat.add_zero] at hcm0
    have hla : childLookahead (lines.getD (k+1) []) = some ws0.length :=
      childLookahead_of_rstrip _ _ _ _ hcm0
    have hk1 : k + 1 < lines.length := by
      cases cs with
      | nil => exact absurd rfl hcs
      | cons a b => simp at hin; omega
    have hpne : p ≠ [] := matchItem_path_ne_nil _ _ _ _ hm
    have hpn : parseNavItem lines k t p (wsk.length / 2) =
        (Y.map1 t (Y.list (Y.s p :: childEntriesOf cs)),
          (List.range cs.length).map (fun idx => k + 2 + idx)) := by
      rw [hlvl,
        parseNavItem_parent lines k t p ws0.length hk1 hla (by omega) hpne hslash,
        hcollect]
    rw [hpn]
  · intro s' idx hidx hmem
    have harith : k + 1 + idx + 1 = k + 2 + idx := by omega
    have hlt : k + 1 + idx < lines.length := by omega
    obtain ⟨ws', _, hcm'⟩ := hrows idx hidx
    rw [List.getD_eq_getElem lines [] hlt] at hcm'
    have hb' : pyRstrip lines[k + 1 + idx] ≠ [] :=
      (childItemMatch_not_heading _ _ _ _ hcm').1
    have hmem' : (k + 1 + idx + 1) ∈ s'.processed := by rw [harith]; exact hmem
    have hstep := scan_skip_of_processed lines (k+1+idx) s' hlt hb' hmem'
    rw [hstep, harith]

/-- C8 counterexample: `[A](a.md)` is a level-0 link line (dash-less),
its path does not end in `/index.md`, and it is separated from the level-1
line `  - [B](b.md)` by a blank line; the claim asserts the level-1 entry
then appears nowhere in the tree, but the child-collection scan of the
earlier `/index.md` entry `P` marches over the dash-less line and captures
`B` as a child of `P`. -/
theorem C8_counterexample :
    parse_summary
        (["- [P](p/index.md)", "[A](a.md)", "", "  - [B](b.md)"].map
          String.toList) =
      [Y.map1 "P".toList
        (Y.list [Y.s "p/index.md".toList,
          Y.map1 "B".toList (Y.s "b.md".toList)]),
       Y.map1 "A".toList (Y.s "a.md".toList)] ∧
    "b.md".toList ∈
      leafPathsL
        (parse_summary
          (["- [P](p/index.md)", "[A](a.md)", "", "  - [B](b.md)"].map
            String.toList)) :=
  ⟨rfl, by decide⟩

/-- C8 (amended): a level-0 link line whose path does not end in
`/index.md` and whose next line is blank is returned as a childless leaf
consuming nothing — the lookahead inspects only the single immediately-next
line (first conjunct) — and any line at indent level 1 or deeper is
discarded by the main scan (second conjunct); the level-1 entries can
nevertheless appear in the output when an earlier entry's child collection
passes over a dash-less level-0 line and captures them. -/
theorem C8_amended :
    (∀ (lines : List Str) (k : Nat) (s : PState) (ws t p : Str)
      (hk : k < lines.length),
      matchItem (pyRstrip lines[k]) = some (ws, t, p) →
      ws.length / 2 = 0 →
      isHomePage p = false →
      "/index.md".toList.isSuffixOf p = false →
      (k+1) ∉ s.processed →
      (k + 1 < lines.length → pyRstrip (lines.getD (k+1) []) = []) →
      scan lines k s = scan lines (k+1) (appendEntry s (Y.map1 t (Y.s p)))) ∧
    (∀ (lines : List Str) (j : Nat) (s' : PState) (ws t p : Str)
      (hj : j < lines.length),
      (j+1) ∉ s'.processed →
      matchItem (pyRstrip lines[j]) = some (ws, t, p) →
      0 < ws.length / 2 →
      scan lines j s' = scan lines (j+1) s') := by
  constructor
  · intro lines k s ws t p hk hm hlvl hhome hidx hproc hblank
    obtain ⟨hb, hnh⟩ := matchItem_not_heading _ _ _ _ hm
    have hl : ¬ ws.length / 2 > 0 := by omega
    rw [scan_item_step lines k s ws t p hk hb hproc hnh hm hl hhome]
    have hpn : parseNavItem lines k t p (ws.length / 2) =
        (Y.map1 t (Y.s p), []) := by
      rw [hlvl]
      exact parseNavItem_leaf lines k t p
        (fun hlt => Or.inl (childLookahead_of_blank _ (hblank hlt))) hidx
    rw [hpn]
    simp
  · intro lines j s' ws t p hj hproc hm hpos
    exact scan_skip_of_indent lines j s' ws t p hj
      (matchItem_not_heading _ _ _ _ hm).1 hproc
      (matchItem_not_heading _ _ _ _ hm).2 hm hpos

/-- Witness for the amended C8 on the concrete document
`- [A](a.md)` / blank / `  - [B](b.md)`. -/
theorem C8_amended_witness :
    (scan (["- [A](a.md)", "", "  - [B](b.md)"].map String.toList) 0 initState =
      scan (["- [A](a.md)", "", "  - [B](b.md)"].map String.toList) 1
        (appendEntry initState (Y.map1 "A".toList (Y.s "a.md".toList)))) ∧
    (scan (["- [A](a.md)", "", "  - [B](b.md)"].map String.toList) 2 initState =
      scan (["- [A](a.md)", "", "  - [B](b.md)"].map String.toList) 3
        initState) :=
  ⟨C8_amended.1 (["- [A](a.md)", "", "  - [B](b.md)"].map String.toList)
      0 initState [] "A".toList "a.md".toList (by decide) (by rfl) (by decide)
      (by decide) (by decide) (by decide) (fun _ => by rfl),
   C8_amended.2 (["- [A](a.md)", "", "  - [B](b.md)"].map String.toList)
      2 initState "  ".toList "B".toList "b.md".toList (by decide) (by decide)
      (by rfl) (by decide)⟩

/-- Witness for the amended C5 on the concrete document
`- [A](a.md)` / `  - [B](b.md)`. -/
theorem C5_amended_witness :
    (scan (["- [A](a.md)", "  - [B](b.md)"].map String.toList) 0 initState =
      scan (["- [A](a.md)", "  - [B](b.md)"].map String.toList) 1
        (appendEntry
          { initState with processed :=
              initState.processed ++
                (List.range 1).map (fun idx => 0 + 2 + idx) }
          (Y.map1 "A".toList
            (Y.list (Y.s "a.md".toList ::
              childEntriesOf [("B".toList, "b.md".toList)]))))) ∧
    (scan (["- [A](a.md)", "  - [B](b.md)"].map String.toList) 1
        ⟨[], none, [], false, [2], []⟩ =
      scan (["- [A](a.md)", "  - [B](b.md)"].map String.toList) 2
        ⟨[], none, [], false, [2], []⟩) := by
  have h := C5_amended (["- [A](a.md)", "  - [B](b.md)"].map String.toList)
    0 initState [] "A".toList "a.md".toList [("B".toList, "b.md".toList)]
    (by decide) (by rfl) (by decide) (by decide) (by decide) (by decide)
    (by decide)
    (by
      intro idx hidx
      have h0 : idx = 0 := by simpa using hidx
      subst h0
      exact ⟨"  ".toList, by decide, by rfl⟩)
    (by decide) (Or.inl (by decide))
  exact ⟨h.1, h.2 ⟨[], none, [], false, [2], []⟩ 0 (by decide) (by decide)⟩

/-- Witness for C9 on a concrete state with an open section `S` holding one
accumulated entry, at a `# Summary` heading line. -/
theorem C9_witness :
    scan (["# Summary"].map String.toList) 0
        ⟨[], some "S".toList, [Y.map1 "A".toList (Y.s "a.md".toList)],
          false, [], []⟩ =
      scan (["# Summary"].map String.toList) 1
        ⟨[Y.map1 "S".toList
            (Y.list [Y.map1 "A".toList (Y.s "a.md".toList)])],
          some "S".toList, [], false, [], []⟩ :=
  C9_summary_flushes_but_keeps_name.1 (["# Summary"].map String.toList) 0
    ⟨[], some "S".toList, [Y.map1 "A".toList (Y.s "a.md".toList)],
      false, [], []⟩
    (by decide) (by decide) (by decide) (by rfl) (by decide) (by decide)

/-- Witness for C7: a prose line is skipped with the state unchanged, and a
document of prose and blank lines parses to the empty tree. -/
theorem C7_witness :
    (scan (["hello world"].map String.toList) 0 initState =
      scan (["hello world"].map String.toList) 1 initState) ∧
    parse_summary (["hello world", "", "not a link [x]"].map String.toList) =
      [] :=
  ⟨C7_parser_permissive_total.1 (["hello world"].map String.toList) 0 initState
      (by decide) (by decide) (by decide) (by rfl) (by decide),
   C7_parser_permissive_total.2
      (["hello world", "", "not a link [x]"].map String.toList) (by decide)⟩

/-- Witness for C10: the bare bracketed link on the second line of a
document (hence not the first line) is accepted as a top-level entry. -/
theorem C10_witness :
    scan (["", "[T](p.md)"].map String.toList) 1 initState =
      scan (["", "[T](p.md)"].map String.toList) 2
        (appendEntry initState (Y.map1 "T".toList (Y.s "p.md".toList))) :=
  C10_dashless_any_line (["", "[T](p.md)"].map String.toList) 1 initState
    "T".toList "p.md".toList (by decide) (by rfl) (by decide) (by decide)
    (by decide) (by decide) (by decide) (by decide) (by decide) (by decide)
    (fun hcon => absurd hcon (by decide)) (by decide)

theorem leafPathsL_append (a b : List Y) :
    leafPathsL (a ++ b) = leafPathsL a ++ leafPathsL b := by
  induction a with
  | nil => simp [leafPathsL]
  | cons y ys ih => simp [leafPathsL, ih]

theorem mem_leafPathsL (q : Str) (ch : List Y) :
    q ∈ leafPathsL ch ↔ ∃ y ∈ ch, q ∈ leafPathsY y := by
  induction ch with
  | nil => simp [leafPathsL]
  | cons y ys ih => simp [leafPathsL, ih, List.mem_append, or_and_right,
      exists_or]

/-- Provenance and consumed-line bookkeeping of the child-collection loop:
every collected child was extracted by the child-item pattern at indent
level exactly `lvl + 1` from a line at an index at or beyond the loop's
start, and every consumed line number is the 1-indexed number of such a
line. -/
theorem collectGo_spec (lines : List Str) :
    ∀ (susp : List Str) (j lvl : Nat), susp = lines.drop j →
    (∀ y ∈ (collectGo susp j lvl).1, ∃ idx, j ≤ idx ∧ idx < lines.length ∧
      ∃ ws' t' p',
        childItemMatch (pyRstrip (lines.getD idx [])) = some (ws', t', p') ∧
        ws'.length / 2 = lvl + 1 ∧ y = Y.map1 t' (Y.s p')) ∧
    (∀ n ∈ (collectGo susp j lvl).2, ∃ idx, n = idx + 1 ∧ j ≤ idx ∧
      idx < lines.length ∧
      ∃ ws' t' p',
        childItemMatch (pyRstrip (lines.getD idx [])) = some (ws', t', p') ∧
        ws'.length / 2 = lvl + 1) := by
  intro susp
  induction susp with
  | nil =>
    intro j lvl hs
    simp [collectGo]
  | cons l rest ih =>
    intro j lvl hs
    have hj : j < lines.length := by
      by_contra hc
      push_neg at hc
      rw [List.drop_eq_nil_of_le hc] at hs
      cases hs
    have hcons : lines.drop j = lines[j] :: lines.drop (j+1) :=
      List.drop_eq_getElem_cons hj
    rw [hcons] at hs
    injection hs with hl hrest
    subst hl
    have ihnext := ih (j+1) lvl hrest
    simp only [collectGo]
    by_cases h1 : (pyRstrip lines[j]).headD ' ' = '#'
    · rw [if_pos h1]
      simp
    · rw [if_neg h1]
      by_cases h2 : pyRstrip lines[j] = []
      · rw [if_pos h2]
        refine ⟨fun y hy => ?_, fun n hn => ?_⟩
        · obtain ⟨idx, hidx1, hrest'⟩ := ihnext.1 y hy
          exact ⟨idx, by omega, hrest'⟩
        · obtain ⟨idx, hn1, hidx1, hrest'⟩ := ihnext.2 n hn
          exact ⟨idx, hn1, by omega, hrest'⟩
      · rw [if_neg h2]
        rcases hmi : childItemMatch (pyRstrip lines[j]) with _ | ⟨ws, t, p⟩
        · simp only [hmi]
          refine ⟨fun y hy => ?_, fun n hn => ?_⟩
          · obtain ⟨idx, hidx1, hrest'⟩ := ihnext.1 y hy
            exact ⟨idx, by omega, hrest'⟩
          · obtain ⟨idx, hn1, hidx1, hrest'⟩ := ihnext.2 n hn
            exact ⟨idx, hn1, by omega, hrest'⟩
        · simp only [hmi]
          by_cases h3 : ws.length / 2 ≤ lvl
          · rw [if_pos h3]
            simp
          · rw [if_neg h3]
            by_cases h4 : ws.length / 2 = lvl + 1
            · rw [if_pos h4]
              have hgd : lines.getD j [] = lines[j] :=
                List.getD_eq_getElem lines [] hj
              refine ⟨fun y hy => ?_, fun n hn => ?_⟩
              · rcases List.mem_cons.mp hy with hy0 | hy'
                · exact ⟨j, le_refl j, hj, ws, t, p, by rw [hgd]; exact hmi,
                    h4, hy0⟩
                · obtain ⟨idx, hidx1, hrest'⟩ := ihnext.1 y hy'
                  exact ⟨idx, by omega, hrest'⟩
              · rcases List.mem_cons.mp hn with hn0 | hn'
                · exact ⟨j, hn0, le_refl j, hj, ws, t, p,
                    by rw [hgd]; exact hmi, h4⟩
                · obtain ⟨idx, hn1, hidx1, hrest'⟩ := ihnext.2 n hn'
                  exact ⟨idx, hn1, by omega, hrest'⟩
            · rw [if_neg h4]
              refine ⟨fun y hy => ?_, fun n hn => ?_⟩
              · obtain ⟨idx, hidx1, hrest'⟩ := ihnext.1 y hy
                exact ⟨idx, by omega, hrest'⟩
              · obtain ⟨idx, hn1, hidx1, hrest'⟩ := ihnext.2 n hn
                exact ⟨idx, hn1, by omega, hrest'⟩

theorem flushSection_pres (P : Str → Prop) (s : PState)
    (h1 : ∀ q ∈ leafPathsL s.nav, P q)
    (h2 : ∀ q ∈ leafPathsL s.items, P q) :
    (∀ q ∈ leafPathsL (flushSection s).nav, P q) ∧
    (∀ q ∈ leafPathsL (flushSection s).items, P q) := by
  unfold flushSection
  split
  · refine ⟨fun q hq => ?_, fun q hq => ?_⟩
    · simp only [leafPathsL_append] at hq
      rcases List.mem_append.mp hq with h | h
      · exact h1 q h
      · refine h2 q ?_
        simpa [leafPathsL, leafPathsY] using h
    · simp [leafPathsL] at hq
  · exact ⟨h1, h2⟩

theorem flushSection_shape (s : PState) :
    flushSection s = s ∨
    ((flushSection s).nav =
        s.nav ++ [Y.map1 (s.curName.getD []) (Y.list s.items)] ∧
      (flushSection s).items = [] ∧
      (flushSection s).processed = s.processed) := by
  unfold flushSection
  split
  · exact Or.inr ⟨rfl, rfl, rfl⟩
  · exact Or.inl rfl

theorem appendEntry_processed (s : PState) (item : Y) :
    (appendEntry s item).processed = s.processed := by
  unfold appendEntry
  split <;> rfl

theorem headingStep_fields (s : PState) (line : Str) :
    (headingStep s line).nav = (flushSection s).nav ∧
    (headingStep s line).items = (flushSection s).items ∧
    (headingStep s line).processed = s.processed := by
  have hfl : (flushSection s).processed = s.processed := by
    unfold flushSection
    split <;> rfl
  by_cases hsum : pyLower (pyStrip (line.dropWhile (· = '#'))) =
      ['s', 'u', 'm', 'm', 'a', 'r', 'y']
  · simp [headingStep, hsum, hfl]
  · simp [headingStep, hsum, hfl]

theorem appendEntry_pres (P : Str → Prop) (s : PState) (item : Y)
    (h1 : ∀ q ∈ leafPathsL s.nav, P q)
    (h2 : ∀ q ∈ leafPathsL s.items, P q)
    (hitem : ∀ q ∈ leafPathsY item, P q) :
    (∀ q ∈ leafPathsL (appendEntry s item).nav, P q) ∧
    (∀ q ∈ leafPathsL (appendEntry s item).items, P q) := by
  unfold appendEntry
  split
  · refine ⟨h1, fun q hq => ?_⟩
    simp only [leafPathsL_append] at hq
    rcases List.mem_append.mp hq with h | h
    · exact h2 q h
    · exact hitem q (by simpa [leafPathsL] using h)
  · refine ⟨fun q hq => ?_, h2⟩
    simp only [leafPathsL_append] at hq
    rcases List.mem_append.mp hq with h | h
    · exact h1 q h
    · exact hitem q (by simpa [leafPathsL] using h)

/-- The paths of the entry built for a level-0 item line are its own path
and the collected children's paths: any predicate holding of those holds of
every leaf path of the entry. -/
theorem parseNavItem_pres (P : Str → Prop) (lines : List Str) (i : Nat)
    (t p : Str) (hp : P p)
    (hchild : ∀ q, q ∈ leafPathsL (collectKids lines (i+1) 0).1 → P q) :
    ∀ q ∈ leafPathsY (parseNavItem lines i t p 0).1, P q := by
  intro q hq
  simp only [parseNavItem] at hq
  by_cases hc1 : ((if i + 1 < lines.length then
      match childLookahead (lines.getD (i+1) []) with
      | some w => decide (w / 2 > 0)
      | none => false
    else false) || "/index.md".toList.isSuffixOf p) = true
  · rw [if_pos hc1] at hq
    by_cases hc2 : p ≠ [] ∧ ¬ (['/'].isSuffixOf p = true)
    · rw [if_pos hc2] at hq
      have hq' : q = p ∨ q ∈ leafPathsL (collectKids lines (i+1) 0).1 := by
        simpa [leafPathsY, leafPathsL] using hq
      rcases hq' with h | h
      · subst h
        exact hp
      · exact hchild q h
    · rw [if_neg hc2] at hq
      have hq' : q ∈ leafPathsL (collectKids lines (i+1) 0).1 := by
        simpa [leafPathsY] using hq
      exact hchild q hq'
  · rw [if_neg hc1] at hq
    have : q = p := by simpa [leafPathsY] using hq
    subst this
    exact hp

/-- Provenance of the entry built for a level-0 item line: its own path
plus the collected children's paths, all with level at most 1. -/
theorem parseNavItem_origin (lines : List Str) (i : Nat) (t p : Str)
    (hp : originOK lines p) :
    ∀ q ∈ leafPathsY (parseNavItem lines i t p 0).1, originOK lines q := by
  refine parseNavItem_pres (originOK lines) lines i t p hp ?_
  intro q hq
  obtain ⟨y, hy, hqy⟩ := (mem_leafPathsL q _).mp hq
  obtain ⟨idx, _, hlt, ws', t', p', hcm, hlvl, hyeq⟩ :=
    (collectGo_spec lines (lines.drop (i+1)) (i+1) 0 rfl).1 y hy
  subst hyeq
  have hqp : q = p' := by simpa [leafPathsY] using hqy
  subst hqp
  rw [List.getD_eq_getElem lines [] hlt] at hcm
  exact Or.inr ⟨lines[idx], List.getElem_mem hlt, ws', t',
    Or.inr hcm, by omega⟩

/-- Main provenance invariant of the scan loop. -/
theorem scan_origin (lines : List Str) :
    ∀ (susp : List Str) (i : Nat) (s : PState), susp = lines.drop i →
    (∀ q ∈ leafPathsL s.nav, originOK lines q) →
    (∀ q ∈ leafPathsL s.items, originOK lines q) →
    (∀ q ∈ leafPathsL (scanGo lines susp i s).nav, originOK lines q) ∧
    (∀ q ∈ leafPathsL (scanGo lines susp i s).items, originOK lines q) := by
  intro susp
  induction susp with
  | nil =>
    intro i s hs h1 h2
    exact ⟨h1, h2⟩
  | cons l rest ih =>
    intro i s hs h1 h2
    have hi : i < lines.length := by
      by_contra hc
      push_neg at hc
      rw [List.drop_eq_nil_of_le hc] at hs
      cases hs
    have hcons : lines.drop i = lines[i] :: lines.drop (i+1) :=
      List.drop_eq_getElem_cons hi
    rw [hcons] at hs
    injection hs with hl hrest
    subst hl
    simp only [scanGo]
    by_cases hb : pyRstrip lines[i] = []
    · rw [if_pos hb]
      exact ih (i+1) s hrest h1 h2
    · rw [if_neg hb]
      by_cases hpr : (i+1) ∈ s.processed
      · rw [if_pos hpr]
        exact ih (i+1) s hrest h1 h2
      · rw [if_neg hpr]
        by_cases hh : (pyRstrip lines[i]).headD ' ' = '#'
        · rw [if_pos hh]
          obtain ⟨hn, hit, _⟩ := headingStep_fields s (pyRstrip lines[i])
          obtain ⟨hf1, hf2⟩ := flushSection_pres (originOK lines) s h1 h2
          exact ih (i+1) _ hrest (hn ▸ hf1) (hit ▸ hf2)
        · rw [if_neg hh]
          rcases hmi : matchItem (pyRstrip lines[i]) with _ | ⟨ws, t, p⟩
          · simp only [hmi]
            exact ih (i+1) s hrest h1 h2
          · simp only [hmi]
            by_cases hlvl : ws.length / 2 > 0
            · rw [if_pos hlvl]
              exact ih (i+1) s hrest h1 h2
            · rw [if_neg hlvl]
              by_cases hho : isHomePage p = true
              · rw [hho]
                simp only [if_pos rfl]
                refine ih (i+1) _ hrest (fun q hq => ?_) h2
                simp only [homeStep, leafPathsL] at hq
                rcases List.mem_append.mp hq with h | h
                · have : q = "index.md".toList := by
                    simpa [homeEntry, leafPathsY] using h
                  exact Or.inl this
                · exact h1 q h
              · rw [Bool.not_eq_true] at hho
                rw [hho]
                simp only [Bool.false_eq_true, if_false]
                have hporig : originOK lines p :=
                  Or.inr ⟨lines[i], List.getElem_mem hi, ws, t,
                    Or.inl hmi, by omega⟩
                have hlvl0 : ws.length / 2 = 0 := by omega
                have hitem := parseNavItem_origin lines i t p hporig
                rw [hlvl0]
                obtain ⟨ha1, ha2⟩ := appendEntry_pres (originOK lines)
                  { s with processed :=
                      s.processed ++ (parseNavItem lines i t p 0).2 }
                  (parseNavItem lines i t p 0).1 h1 h2 hitem
                exact ih (i+1) _ hrest ha1 ha2

/-- C4 counterexample: the level-2 line `    - [C](c.md)` under the level-1
entry `B` is not attached to the nearest level-0 entry `A`: the output for
this document contains `A` with the single child `B`, and `c.md` appears
nowhere in the tree, contradicting the claim that the entry is flattened in
rather than dropped. -/
theorem C4_counterexample :
    parse_summary
        (["- [A](a/index.md)", "  - [B](b.md)", "    - [C](c.md)"].map
          String.toList) =
      [Y.map1 "A".toList
        (Y.list [Y.s "a/index.md".toList,
          Y.map1 "B".toList (Y.s "b.md".toList)])] ∧
    "c.md".toList ∉
      leafPathsL
        (parse_summary
          (["- [A](a/index.md)", "  - [B](b.md)", "    - [C](c.md)"].map
            String.toList)) :=
  ⟨rfl, by decide⟩

/-- C4 (amended): link lines at indent level 2 or deeper are dropped, not
flattened: every target path in the tree produced by `parse_summary` either
is the canonical home path or was extracted from a line by the item pattern
at level 0 or by the child-item pattern at level 1; no entry originates
from a level-≥2 line. -/
theorem C4_level2_dropped (lines : List Str) (q : Str)
    (hq : q ∈ leafPathsL (parse_summary lines)) : originOK lines q := by
  unfold parse_summary finalizeNav at hq
  have hsc := scan_origin lines (lines.drop 0) 0 initState rfl
    (by simp [initState, leafPathsL]) (by simp [initState, leafPathsL])
  revert hq
  split
  · intro hq
    simp only [leafPathsL_append] at hq
    rcases List.mem_append.mp hq with h | h
    · exact hsc.1 q h
    · refine hsc.2 q ?_
      simpa [leafPathsL, leafPathsY] using h
  · intro hq
    exact hsc.1 q hq

/-- Witness for the amended C4: the path `b.md` of the concrete document
has level-≤1 provenance. -/
theorem C4_witness :
    originOK
      (["- [A](a/index.md)", "  - [B](b.md)", "    - [C](c.md)"].map
        String.toList)
      "b.md".toList :=
  C4_level2_dropped
    (["- [A](a/index.md)", "  - [B](b.md)", "    - [C](c.md)"].map
      String.toList)
    "b.md".toList (by decide)

theorem appendEntry_shape (s : PState) (item : Y) :
    ((appendEntry s item).nav = s.nav ∧
      (appendEntry s item).items = s.items ++ [item]) ∨
    ((appendEntry s item).nav = s.nav ++ [item] ∧
      (appendEntry s item).items = s.items) := by
  unfold appendEntry
  split
  · exact Or.inl ⟨rfl, rfl⟩
  · exact Or.inr ⟨rfl, rfl⟩

/-- The lines consumed by a level-0 item are those of its child-collection
run (or none for a childless item). -/
theorem parseNavItem_consumed (lines : List Str) (i : Nat) (t p : Str) :
    (parseNavItem lines i t p 0).2 = (collectKids lines (i+1) 0).2 ∨
    (parseNavItem lines i t p 0).2 = [] := by
  simp only [parseNavItem]
  by_cases hc1 : ((if i + 1 < lines.length then
      match childLookahead (lines.getD (i+1) []) with
      | some w => decide (w / 2 > 0)
      | none => false
    else false) || "/index.md".toList.isSuffixOf p) = true
  · rw [if_pos hc1]
    by_cases hc2 : p ≠ [] ∧ ¬ (['/'].isSuffixOf p = true)
    · rw [if_pos hc2]
      exact Or.inl rfl
    · rw [if_neg hc2]
      exact Or.inl rfl
  · rw [if_neg hc1]
    exact Or.inr rfl

/-- After the home line has been processed, the home entry stays the first
element of `nav`: every later operation appends at the end, the home branch
can no longer fire (uniqueness), and the flushes only append groups. -/
theorem scan_home_after (lines : List Str) (h0 : Nat) (ws t p : Str)
    (hh0 : h0 < lines.length)
    (hm : matchItem (pyRstrip lines[h0]) = some (ws, t, p))
    (hlvl0 : ws.length / 2 = 0)
    (huniq : ∀ j (hj : j < lines.length), j ≠ h0 →
      ∀ ws' t' p', matchItem (pyRstrip lines[j]) = some (ws', t', p') →
        isHomePage p' = false) :
    ∀ (n i : Nat) (s : PState), lines.length - i ≤ n → h0 < i →
    ∀ r0, s.nav = homeEntry :: r0 → noHomePaths r0 → noHomePaths s.items →
    ∃ rest, finalizeNav (scan lines i s) = homeEntry :: rest ∧
      noHomePaths rest := by
  have hchildnh : ∀ (ii : Nat) (q : Str),
      q ∈ leafPathsL (collectKids lines (ii+1) 0).1 →
      isHomePage q = false := by
    intro ii q hq
    obtain ⟨y, hy, hqy⟩ := (mem_leafPathsL q _).mp hq
    obtain ⟨idx, _, hlt, ws', t', p', hcm, hlvl1, hyeq⟩ :=
      (collectGo_spec lines (lines.drop (ii+1)) (ii+1) 0 rfl).1 y hy
    subst hyeq
    have hqp : q = p' := by simpa [leafPathsY] using hqy
    subst hqp
    rw [List.getD_eq_getElem lines [] hlt] at hcm
    have hmi := childItemMatch_imp_matchItem _ _ _ _ hcm
    by_cases hidx : idx = h0
    · subst hidx
      rw [hm] at hmi
      injection hmi with h'
      have hws : ws = ws' := congrArg Prod.fst h'
      exfalso
      rw [← hws] at hlvl1
      omega
    · exact huniq idx hlt hidx ws' t' q hmi
  have hfin : ∀ (s : PState) (r0 : List Y), s.nav = homeEntry :: r0 →
      noHomePaths r0 → noHomePaths s.items →
      ∃ rest, finalizeNav s = homeEntry :: rest ∧ noHomePaths rest := by
    intro s r0 hnav hr0 hitems
    unfold finalizeNav
    split
    · refine ⟨r0 ++ [Y.map1 (s.curName.getD []) (Y.list s.items)],
        by rw [hnav]; simp, ?_⟩
      intro q hq
      rw [leafPathsL_append] at hq
      rcases List.mem_append.mp hq with hq' | hq'
      · exact hr0 q hq'
      · exact hitems q (by simpa [leafPathsL, leafPathsY] using hq')
    · exact ⟨r0, hnav, hr0⟩
  intro n
  induction n with
  | zero =>
    intro i s hn hi r0 hnav hr0 hitems
    rw [scan_stop lines i s (by omega)]
    exact hfin s r0 hnav hr0 hitems
  | succ n ih =>
    intro i s hn hi r0 hnav hr0 hitems
    by_cases hlen : i < lines.length
    · by_cases hb : pyRstrip lines[i] = []
      · rw [scan_skip_of_blank lines i s hlen hb]
        exact ih (i+1) s (by omega) (by omega) r0 hnav hr0 hitems
      · by_cases hpr : (i+1) ∈ s.processed
        · rw [scan_skip_of_processed lines i s hlen hb hpr]
          exact ih (i+1) s (by omega) (by omega) r0 hnav hr0 hitems
        · by_cases hh : (pyRstrip lines[i]).headD ' ' = '#'
          · rw [scan_heading_step lines i s hlen hb hpr hh]
            obtain ⟨hn2, hit2, _⟩ := headingStep_fields s (pyRstrip lines[i])
            rcases flushSection_shape s with hsh | ⟨hfn, hfi, _⟩
            · exact ih (i+1) _ (by omega) (by omega) r0
                (by rw [hn2, hsh]; exact hnav) hr0
                (by rw [hit2, hsh]; exact hitems)
            · refine ih (i+1) _ (by omega) (by omega)
                (r0 ++ [Y.map1 (s.curName.getD []) (Y.list s.items)]) ?_ ?_ ?_
              · rw [hn2, hfn, hnav]
                simp
              · intro q hq
                rw [leafPathsL_append] at hq
                rcases List.mem_append.mp hq with hq' | hq'
                · exact hr0 q hq'
                · exact hitems q (by simpa [leafPathsL, leafPathsY] using hq')
              · rw [hit2, hfi]
                intro q hq
                simp [leafPathsL] at hq
          · rcases hmi : matchItem (pyRstrip lines[i]) with _ | ⟨ws2, t2, p2⟩
            · rw [scan_skip_of_nomatch lines i s hlen hb hpr hh hmi]
              exact ih (i+1) s (by omega) (by omega) r0 hnav hr0 hitems
            · by_cases hlv : ws2.length / 2 > 0
              · rw [scan_skip_of_indent lines i s ws2 t2 p2 hlen hb hpr hh
                  hmi hlv]
                exact ih (i+1) s (by omega) (by omega) r0 hnav hr0 hitems
              · have hhof : isHomePage p2 = false :=
                  huniq i hlen (by omega) ws2 t2 p2 hmi
                rw [scan_item_step lines i s ws2 t2 p2 hlen hb hpr hh hmi
                  hlv hhof]
                have hlv0 : ws2.length / 2 = 0 := by omega
                have hitem : ∀ q ∈ leafPathsY
                    (parseNavItem lines i t2 p2 (ws2.length/2)).1,
                    isHomePage q = false := by
                  rw [hlv0]
                  exact parseNavItem_pres (fun q => isHomePage q = false)
                    lines i t2 p2 hhof (hchildnh i)
                rcases appendEntry_shape
                    { s with processed := s.processed ++
                        (parseNavItem lines i t2 p2 (ws2.length/2)).2 }
                    (parseNavItem lines i t2 p2 (ws2.length/2)).1 with
                  ⟨han, hai⟩ | ⟨han, hai⟩
                · refine ih (i+1) _ (by omega) (by omega) r0
                    (by rw [han]; exact hnav) hr0 ?_
                  rw [hai]
                  intro q hq
                  rw [leafPathsL_append] at hq
                  rcases List.mem_append.mp hq with hq' | hq'
                  · exact hitems q hq'
                  · exact hitem q (by simpa [leafPathsL] using hq')
                · refine ih (i+1) _ (by omega) (by omega)
                    (r0 ++ [(parseNavItem lines i t2 p2 (ws2.length/2)).1])
                    ?_ ?_ (by rw [hai]; exact hitems)
                  · rw [han]
                    show s.nav ++ _ = _
                    rw [hnav]
                    simp
                  · intro q hq
                    rw [leafPathsL_append] at hq
                    rcases List.mem_append.mp hq with hq' | hq'
                    · exact hr0 q hq'
                    · exact hitem q (by simpa [leafPathsL] using hq')
    · rw [scan_stop lines i s (by omega)]
      exact hfin s r0 hnav hr0 hitems

/-- Before the home line is reached, the state stays free of home paths and
the home line stays unconsumed; when the scan reaches it, the home branch
fires and the home entry is inserted at the front. -/
theorem scan_home_before (lines : List Str) (h0 : Nat) (ws t p : Str)
    (hh0 : h0 < lines.length)
    (hm : matchItem (pyRstrip lines[h0]) = some (ws, t, p))
    (hlvl0 : ws.length / 2 = 0)
    (hhome : isHomePage p = true)
    (huniq : ∀ j (hj : j < lines.length), j ≠ h0 →
      ∀ ws' t' p', matchItem (pyRstrip lines[j]) = some (ws', t', p') →
        isHomePage p' = false) :
    ∀ (n i : Nat) (s : PState), lines.length - i ≤ n → i ≤ h0 →
    noHomePaths s.nav → noHomePaths s.items → (h0+1) ∉ s.processed →
    ∃ rest, finalizeNav (scan lines i s) = homeEntry :: rest ∧
      noHomePaths rest := by
  have hchildnh : ∀ (ii : Nat) (q : Str),
      q ∈ leafPathsL (collectKids lines (ii+1) 0).1 →
      isHomePage q = false := by
    intro ii q hq
    obtain ⟨y, hy, hqy⟩ := (mem_leafPathsL q _).mp hq
    obtain ⟨idx, _, hlt, ws', t', p', hcm, hlvl1, hyeq⟩ :=
      (collectGo_spec lines (lines.drop (ii+1)) (ii+1) 0 rfl).1 y hy
    subst hyeq
    have hqp : q = p' := by simpa [leafPathsY] using hqy
    subst hqp
    rw [List.getD_eq_getElem lines [] hlt] at hcm
    have hmi := childItemMatch_imp_matchItem _ _ _ _ hcm
    by_cases hidx : idx = h0
    · subst hidx
      rw [hm] at hmi
      injection hmi with h'
      have hws : ws = ws' := congrArg Prod.fst h'
      exfalso
      rw [← hws] at hlvl1
      omega
    · exact huniq idx hlt hidx ws' t' q hmi
  have hh0nc : ∀ ii : Nat, (h0+1) ∉ (collectKids lines (ii+1) 0).2 := by
    intro ii hmem
    obtain ⟨idx, heq, _, hlt, ws', t', p', hcm, hlvl1⟩ :=
      (collectGo_spec lines (lines.drop (ii+1)) (ii+1) 0 rfl).2 _ hmem
    have hidx : idx = h0 := by omega
    subst hidx
    rw [List.getD_eq_getElem lines [] hlt] at hcm
    have hmi := childItemMatch_imp_matchItem _ _ _ _ hcm
    rw [hm] at hmi
    injection hmi with h'
    have hws : ws = ws' := congrArg Prod.fst h'
    rw [← hws] at hlvl1
    omega
  intro n
  induction n with
  | zero =>
    intro i s hn hi _ _ _
    omega
  | succ n ih =>
    intro i s hn hi hnav hitems hproc
    have hlen : i < lines.length := by omega
    by_cases hieq : i = h0
    · subst hieq
      obtain ⟨hb, hhd⟩ := matchItem_not_heading _ _ _ _ hm
      rw [scan_home_step lines i s ws t p hlen hb hproc hhd hm
        (by omega) hhome]
      exact scan_home_after lines i ws t p hh0 hm hlvl0 huniq
        (lines.length) (i+1) (homeStep s p) (by omega) (by omega) s.nav rfl
        hnav hitems
    · have hilt : i < h0 := by omega
      by_cases hb : pyRstrip lines[i] = []
      · rw [scan_skip_of_blank lines i s hlen hb]
        exact ih (i+1) s (by omega) (by omega) hnav hitems hproc
      · by_cases hpr : (i+1) ∈ s.processed
        · rw [scan_skip_of_processed lines i s hlen hb hpr]
          exact ih (i+1) s (by omega) (by omega) hnav hitems hproc
        · by_cases hh : (pyRstrip lines[i]).headD ' ' = '#'
          · rw [scan_heading_step lines i s hlen hb hpr hh]
            obtain ⟨hn2, hit2, hpro2⟩ :=
              headingStep_fields s (pyRstrip lines[i])
            obtain ⟨hf1, hf2⟩ :=
              flushSection_pres (fun q => isHomePage q = false) s hnav hitems
            exact ih (i+1) _ (by omega) (by omega)
              (fun q hq => hf1 q (hn2 ▸ hq)) (fun q hq => hf2 q (hit2 ▸ hq))
              (by rw [hpro2]; exact hproc)
          · rcases hmi : matchItem (pyRstrip lines[i]) with _ | ⟨ws2, t2, p2⟩
            · rw [scan_skip_of_nomatch lines i s hlen hb hpr hh hmi]
              exact ih (i+1) s (by omega) (by omega) hnav hitems hproc
            · by_cases hlv : ws2.length / 2 > 0
              · rw [scan_skip_of_indent lines i s ws2 t2 p2 hlen hb hpr hh
                  hmi hlv]
                exact ih (i+1) s (by omega) (by omega) hnav hitems hproc
              · have hhof : isHomePage p2 = false :=
                  huniq i hlen hieq ws2 t2 p2 hmi
                rw [scan_item_step lines i s ws2 t2 p2 hlen hb hpr hh hmi
                  hlv hhof]
                have hlv0 : ws2.length / 2 = 0 := by omega
                have hitem : ∀ q ∈ leafPathsY
                    (parseNavItem lines i t2 p2 (ws2.length/2)).1,
                    isHomePage q = false := by
                  rw [hlv0]
                  exact parseNavItem_pres (fun q => isHomePage q = false)
                    lines i t2 p2 hhof (hchildnh i)
                have hproc2 : (h0+1) ∉ s.processed ++
                    (parseNavItem lines i t2 p2 (ws2.length/2)).2 := by
                  intro hmem
                  rcases List.mem_append.mp hmem with hq' | hq'
                  · exact hproc hq'
                  · rw [hlv0] at hq'
                    rcases parseNavItem_consumed lines i t2 p2 with
                      hcons | hcons
                    · rw [hcons] at hq'
                      exact hh0nc i hq'
                    · rw [hcons] at hq'
                      simp at hq'
                obtain ⟨ha1, ha2⟩ := appendEntry_pres
                  (fun q => isHomePage q = false)
                  { s with processed := s.processed ++
                      (parseNavItem lines i t2 p2 (ws2.length/2)).2 }
                  (parseNavItem lines i t2 p2 (ws2.length/2)).1
                  hnav hitems hitem
                refine ih (i+1) _ (by omega) (by omega) ha1 ha2 ?_
                rw [appendEntry_processed]
                exact hproc2

/-- C3 counterexample: the path `Index.md` case-insensitively matches the
claim's home-page filename set, yet `_is_home_page` compares `index.md`
case-sensitively, so the parser leaves the entry in place with its original
path instead of producing a canonical home entry. -/
theorem C3_counterexample :
    claimHomeName "Index.md".toList = true ∧
    parse_summary (["- [Home](Index.md)"].map String.toList) =
      [Y.map1 "Home".toList (Y.s "Index.md".toList)] ∧
    isHomePage "Index.md".toList = false ∧
    "Index.md".toList ≠ "index.md".toList :=
  ⟨by decide, rfl, by decide, by decide⟩

/-- C3 (amended): if exactly one link line of the document has a home-page
path in the sense of `_is_home_page` (the three conventional names
case-insensitively, `index.md` exactly) and that line sits at indent level
0, then the tree's first element is the canonical home entry
`Home: index.md` and no other entry anywhere in the tree has a home-page
path. -/
theorem C3_amended (lines : List Str) (h0 : Nat) (ws t p : Str)
    (hh0 : h0 < lines.length)
    (hm : matchItem (pyRstrip lines[h0]) = some (ws, t, p))
    (hlvl0 : ws.length / 2 = 0)
    (hhome : isHomePage p = true)
    (huniq : ∀ j (hj : j < lines.length), j ≠ h0 →
      ∀ ws' t' p', matchItem (pyRstrip lines[j]) = some (ws', t', p') →
        isHomePage p' = false) :
    ∃ rest, parse_summary lines = homeEntry :: rest ∧ noHomePaths rest := by
  unfold parse_summary
  exact scan_home_before lines h0 ws t p hh0 hm hlvl0 hhome huniq
    lines.length 0 initState (by omega) (by omega)
    (by intro q hq; simp [initState, leafPathsL] at hq)
    (by intro q hq; simp [initState, leafPathsL] at hq)
    (by simp [initState])

/-- Witness for the amended C3 on a concrete two-line document whose only
home line is `- [I](intro.md)`. -/
theorem C3_amended_witness :
    ∃ rest, parse_summary (["- [I](intro.md)", "- [A](a.md)"].map
        String.toList) = homeEntry :: rest ∧ noHomePaths rest := by
  refine C3_amended (["- [I](intro.md)", "- [A](a.md)"].map String.toList)
    0 [] "I".toList "intro.md".toList (by decide) (by rfl) (by decide)
    (by decide) ?_
  intro j hj hne ws' t' p' hm'
  have hlen : (["- [I](intro.md)", "- [A](a.md)"].map String.toList).length
      = 2 := by rfl
  rw [hlen] at hj
  have hj1 : j = 1 := by omega
  subst hj1
  rw [show matchItem
      (pyRstrip ((["- [I](intro.md)", "- [A](a.md)"].map String.toList))[1]) =
      some ([], "A".toList, "a.md".toList) from rfl] at hm'
  injection hm' with h'
  have hp' : "a.md".toList = p' := congrArg (fun x => x.2.2) h'
  rw [← hp']
  decide

/-- C2: the code violates region isolation.  On a document whose `nav:`
block is followed by another top-level key and a final newline, the
DOTALL-compiled block `[ \t]+.*\n` lets the backtracking run of the nav
pattern extend to the end of the text (the `\Z` lookahead), so the
replacement deletes `site_name: test\n` — a byte strictly after the span
the claim (and the code's own comment, "until the next top-level key")
describes.  The merged output retains nothing after the new block. -/
theorem C2_bytes_after_span_destroyed :
    update_nav_in_place "nav:\n  - a\nsite_name: test\n".toList [homeEntry] =
      "nav:\n  - Home: index.md\n\n".toList := by rfl

/-- C1: merging is not idempotent.  On `nav:\nsite_name: test\n` the first
merge matches only the bare `nav:` line (the lookahead succeeds immediately
before `site_name`), so `site_name: test\n` survives; the second merge then
sees indented lines after `nav:` and the DOTALL backtracking extends the
match to the end of the text, deleting `site_name: test\n`.  Hence
`merge(t, merge(t, d)) ≠ merge(t, d)`. -/
theorem C1_merge_not_idempotent :
    update_nav_in_place
        (update_nav_in_place "nav:\nsite_name: test\n".toList [homeEntry])
        [homeEntry] ≠
      update_nav_in_place "nav:\nsite_name: test\n".toList [homeEntry] := by
  rw [show update_nav_in_place "nav:\nsite_name: test\n".toList [homeEntry] =
    "nav:\n  - Home: index.md\n\nsite_name: test\n".toList from rfl]
  rw [show update_nav_in_place
      "nav:\n  - Home: index.md\n\nsite_name: test\n".toList [homeEntry] =
    "nav:\n  - Home: index.md\n\n".toList from rfl]
  decide

/-- C6: when the target document contains no top-level `nav:` field (no
line starts with the literal `nav:`), the merger does not fail: the
substitution count is zero and the serialized tree is appended as a new
field after the trailing whitespace of the document is stripped. -/
theorem C6_no_nav_appends (content : Str) (nav : List Y)
    (hnone : ∀ p, p < content.length → navLineStartAt content p = false) :
    update_nav_in_place content nav =
      pyRstrip content ++ "\n\n# Navigation\nnav:\n".toList ++
        indentedNavOf nav ++ "\n".toList := by
  have hfind : ∀ fuel pos, findNav content fuel pos = none := by
    intro fuel
    induction fuel with
    | zero => intro pos; rfl
    | succ n ih =>
      intro pos
      unfold findNav
      by_cases hp : pos < content.length
      · rw [if_pos hp]
        have hcond := hnone pos hp
        unfold navLineStartAt at hcond
        rw [hcond]
        simp [ih]
      · rw [if_neg hp]
  have hsubn : subnNav content
      ("nav:\n".toList ++ indentedNavOf nav ++ "\n\n".toList) =
      (content, 0) := by
    unfold subnNav
    simp [subnGo, hfind]
  simp only [update_nav_in_place]
  rw [hsubn]
  rfl

/-- Witness for C6 on a concrete nav-less document. -/
theorem C6_witness :
    update_nav_in_place "site_name: test\n".toList [homeEntry] =
      pyRstrip "site_name: test\n".toList ++
        "\n\n# Navigation\nnav:\n".toList ++ indentedNavOf [homeEntry] ++
        "\n".toList :=
  C6_no_nav_appends "site_name: test\n".toList [homeEntry] (by decide)

end MdSync
